import Mathlib

/-!
# websocket-gateway: connection registry, relay loop and HTTP handlers

A shallow embedding of `internal/ws.go`, `internal/http_handlers.go`,
`internal/connection_id.go` and the `appURLs` type of `internal/server.go`.

Modelling conventions.

* A buffered Go channel is its capacity together with the list of buffered
  values, oldest first.  A send on a full channel cannot complete; the
  functions that perform such a send report it as a separate outcome.
* `wsMap` (a Go map) is an association list; `mapGet`, `mapSet` and
  `mapDelete` are index, assignment and `delete`.
* `push`, `addConnection` and `deleteConnection` are the bodies of the
  methods, run by a caller that holds `connectionsMu`.  Who holds the mutex
  is part of the state of a session's run: a `push` parked at a full queue
  keeps it, every other call at `Lock()` waits, and the receive that frees a
  slot lets the parked `push` complete and unlock.
* `publishLimiter.Wait(context.Background())` only delays the caller (its
  result is discarded by `push`, and it touches nothing but the limiter), so
  it does not appear in the state.
* Everything the program obtains from outside (the backend's answers, the
  result of `websocket.Accept`, of `json.Unmarshal`, of `http.NewRequest`,
  of `xid.New()`, the order in which the relay loop's `select` fires) is an
  explicit argument.
-/

namespace Wsgw

/-! ## connection_id.go -/

/-- The Go type `connectionID` (a string). -/
abbrev connectionID := String

/-! ## Go values used by the code -/

/-- Go `error` values.  `connectionNotFound` is the package variable
`errConnectionNotFound`, which the code compares by identity; every other
error is `other`. -/
inductive GoError where
  | connectionNotFound
  | other (text : String)
  deriving DecidableEq, Repr

/-- The package variable `errConnectionNotFound`. -/
def errConnectionNotFound : GoError := GoError.connectionNotFound

/-- A buffered `chan string`: capacity and buffered values, oldest first. -/
structure Chan where
  cap : Nat
  buf : List String
  deriving DecidableEq, Repr

/-- The Go expression `make(chan string, n)`. -/
def Chan.make (n : Nat) : Chan := { cap := n, buf := [] }

/-- The send `ch <- m`: `none` when the buffer is full, in which case the
send statement cannot complete. -/
def Chan.send (ch : Chan) (m : String) : Option Chan :=
  if ch.buf.length < ch.cap then some { ch with buf := ch.buf ++ [m] } else none

/-- The receive `<-ch`: `none` when nothing is buffered. -/
def Chan.recv (ch : Chan) : Option (String × Chan) :=
  match ch.buf with
  | [] => none
  | m :: rest => some (m, { ch with buf := rest })

/-! ## ws.go -/

/-- The struct `connection`.  `fromClient` and `readError` are unbuffered
channels and hold no value between two operations.  `transportClosed` is the
state of the `wsIo` that the closure `closeSlow` captures: `true` once its
`Close()` was called. -/
structure connection where
  id : connectionID
  fromBackend : Chan
  transportClosed : Bool
  deriving DecidableEq, Repr

/-- The closure `closeSlow: func() { wsIo.Close() }`. -/
def connection.closeSlow (conn : connection) : connection :=
  { conn with transportClosed := true }

/-- The struct `wsConnections` (without logger, limiter and mutex). -/
structure wsConnections where
  connectionMessageBuffer : Nat
  wsMap : List (connectionID × connection)
  deriving DecidableEq, Repr

/-- The constructor `newWsConnections`. -/
def newWsConnections : wsConnections :=
  { connectionMessageBuffer := 16, wsMap := [] }

/-- The map index `m[id]`. -/
def mapGet : List (connectionID × connection) → connectionID → Option connection
  | [], _ => none
  | (k, c) :: rest, id => if k = id then some c else mapGet rest id

/-- The map assignment `m[id] = conn`. -/
def mapSet : List (connectionID × connection) → connectionID → connection →
    List (connectionID × connection)
  | [], id, conn => [(id, conn)]
  | (k, c) :: rest, id, conn =>
    if k = id then (k, conn) :: rest else (k, c) :: mapSet rest id conn

/-- The builtin `delete(m, id)`. -/
def mapDelete : List (connectionID × connection) → connectionID →
    List (connectionID × connection)
  | [], _ => []
  | (k, c) :: rest, id =>
    if k = id then mapDelete rest id else (k, c) :: mapDelete rest id

/-- The keys of the map. -/
def mapKeys (m : List (connectionID × connection)) : List connectionID :=
  m.map Prod.fst

/-- The method `addConnection`. -/
def addConnection (wsconn : wsConnections) (conn : connection) : wsConnections :=
  { wsconn with wsMap := mapSet wsconn.wsMap conn.id conn }

/-- The method `deleteConnection`. -/
def deleteConnection (wsconn : wsConnections) (conn : connection) : wsConnections :=
  { wsconn with wsMap := mapDelete wsconn.wsMap conn.id }

/-- What a call of `push` does: it returns an error value (`none` is Go's
`nil`) and leaves a registry, or it stays parked at the channel send
`conn.fromBackend <- msg`, with `connectionsMu` still held. -/
inductive PushOutcome where
  | returned (err : Option GoError) (wsconn : wsConnections)
  | blocked (wsconn : wsConnections)
  deriving DecidableEq, Repr

/-- The loop `for id := range wsconn.wsMap` of `push`, over the entries that
are still to be visited. -/
def pushLoop (wsconn : wsConnections) (msg : String) (connId : connectionID) :
    List (connectionID × connection) → PushOutcome
  | [] => PushOutcome.returned (some errConnectionNotFound) wsconn
  | (id, conn) :: rest =>
    if id = connId then
      match conn.fromBackend.send msg with
      | some ch =>
        PushOutcome.returned none
          { wsconn with wsMap := mapSet wsconn.wsMap id { conn with fromBackend := ch } }
      | none => PushOutcome.blocked wsconn
    else pushLoop wsconn msg connId rest

/-- The method `push`. -/
def push (wsconn : wsConnections) (msg : String) (connId : connectionID) : PushOutcome :=
  pushLoop wsconn msg connId wsconn.wsMap

/-- The callback type `onMgsReceivedFunc`; a result `none` is Go's `nil`. -/
abbrev onMgsReceivedFunc := String → connectionID → Option GoError

/-- The type `http.Header`, a map from header name to its values. -/
abbrev Header := List (String × List String)

/-- What the handlers and the relay loop do to the outside, in order. -/
inductive Event where
  /-- The call `client.Do(request)` for `url`, carrying `header`. -/
  | clientDo (url : String) (header : Header)
  /-- The call `g.AbortWithStatus(code)`. -/
  | abortWithStatus (code : Nat)
  /-- The call `websocket.Accept`, with whether it succeeded. -/
  | accept (ok : Bool)
  /-- The call `ws.processMessages` begins. -/
  | processMessagesStart (connId : connectionID)
  /-- The call `ws.processMessages` returned `err`. -/
  | processMessagesReturn (connId : connectionID) (err : Option GoError)
  /-- The call `writeTimeout(ctx, 5s, wsIo, msg)` with its result. -/
  | write (connId : connectionID) (msg : String) (err : Option GoError)
  /-- The call `onMessageReceived(msg, conn.id)` with its (discarded) result. -/
  | onMessageReceived (msg : String) (connId : connectionID) (err : Option GoError)
  /-- The deferred `wsConn.Close(websocket.StatusNormalClosure, "")`. -/
  | wsConnClose
  deriving DecidableEq, Repr

/-- Which case of the relay loop's `select` fires.  `fromBackend` describes
the write of the message received: the transport's `Write` would return
`writeErr` after `seconds` seconds, and it returns `expired` when its context
ends before that (by default the write is done at once).  `readError` carries
the error the reader goroutine sent; `ctxDone` the value of `ctx.Err()`. -/
inductive SelectEvent where
  | fromBackend (writeErr : Option GoError) (seconds : Nat := 0)
      (expired : GoError := GoError.other "context deadline exceeded")
  | fromClient (msg : String)
  | readError (errRead : GoError)
  | ctxDone (ctxErr : GoError)
  deriving DecidableEq, Repr

/-- One step of a schedule seen from a session.  `select`: its own `select`
fires.  `push`: a call of `push` by another goroutine reaches
`connectionsMu.Lock()`.  `receive`: the relay loop of another session
receives from its `fromBackend`.  `deferred`: the deferred `deleteConnection`
of this session reaches `connectionsMu.Lock()`. -/
inductive Step where
  | select (ev : SelectEvent)
  | push (msg : String) (connId : connectionID)
  | receive (connId : connectionID)
  | deferred
  deriving DecidableEq, Repr

/-- The function `writeTimeout`: `sIo.Write` under a context that ends
`timeout` seconds from now.  The result is the write's own result if the
transport is done within the timeout, and the expiry error otherwise. -/
def writeTimeout (timeout : Nat) (writeErr : Option GoError) (seconds : Nat)
    (expired : GoError) : Option GoError :=
  if seconds ≤ timeout then writeErr else some expired

/-- The state of `connectionsMu` between two steps: `none` when it is free,
`some (msg, id)` while a call `push(msg, id)` parked at its channel send
holds it.  (Every other holder releases it within its own step.) -/
abbrev MutexState := Option (String × connectionID)

/-- The message of the send that waits at the `fromBackend` channel of the
session `id`, if there is one. -/
def parkedOn (mu : MutexState) (id : connectionID) : Option String :=
  match mu with
  | none => none
  | some (msg, target) => if target = id then some msg else none

/-- The receive `<-ch` on a channel at which the send of `parked` may wait:
the receiver takes the oldest buffered value and the waiting value moves into
the buffer, or, with nothing buffered, takes the waiting value itself. -/
def Chan.recvWith (ch : Chan) (parked : Option String) : Option (String × Chan) :=
  match parked with
  | none => ch.recv
  | some p =>
    match ch.buf with
    | [] => some (p, ch)
    | m :: rest => some (m, { ch with buf := rest ++ [p] })

/-- The receive `<-conn.fromBackend` by the relay loop of the session
registered under `id`: the message received, the registry afterwards, and
the mutex afterwards (a `push` that was parked at this channel completes its
send, returns and unlocks).  `none` when there is nothing to receive. -/
def receiveFromBackend (wsconn : wsConnections) (mu : MutexState) (id : connectionID) :
    Option (String × wsConnections × MutexState) :=
  match mapGet wsconn.wsMap id with
  | none => none
  | some conn =>
    match conn.fromBackend.recvWith (parkedOn mu id) with
    | none => none
    | some (msg, ch) =>
      some (msg,
        { wsconn with wsMap := mapSet wsconn.wsMap id { conn with fromBackend := ch } },
        if (parkedOn mu id).isSome then none else mu)

/-- What one pass through the `select` of the relay loop does: the loop goes
on (`next`) or `processMessages` executes a `return` (`ret`). -/
inductive IterOutcome where
  | next (wsconn : wsConnections) (mu : MutexState) (trace : List Event)
  | ret (err : Option GoError) (wsconn : wsConnections) (mu : MutexState)
      (trace : List Event)
  deriving DecidableEq, Repr

/-- The body of the `for` loop of `processMessages` for the `select` case
that fires.  The connection is read through the registry, which holds the
pointer to it for as long as the loop runs.  A `fromBackend` case with
nothing to receive is not ready: the loop keeps waiting.  The timeout of the
write is `time.Second*5`. -/
def selectCase (wsconn : wsConnections) (mu : MutexState) (connId : connectionID)
    (onMessageReceived : onMgsReceivedFunc) : SelectEvent → IterOutcome
  | SelectEvent.fromBackend writeErr seconds expired =>
    match receiveFromBackend wsconn mu connId with
    | none => IterOutcome.next wsconn mu []
    | some (msg, wsconn1, mu1) =>
      match writeTimeout 5 writeErr seconds expired with
      | some err =>
        IterOutcome.ret (some err) wsconn1 mu1 [Event.write connId msg (some err)]
      | none => IterOutcome.next wsconn1 mu1 [Event.write connId msg none]
  | SelectEvent.fromClient msg =>
    IterOutcome.next wsconn mu
      [Event.onMessageReceived msg connId (onMessageReceived msg connId)]
  | SelectEvent.readError _ => IterOutcome.ret none wsconn mu []
  | SelectEvent.ctxDone ctxErr => IterOutcome.ret (some ctxErr) wsconn mu []

/-- Where a call of `processMessages` stands: its `for` loop is `running`;
the loop has executed `return err` and the deferred `deleteConnection` has
not yet obtained `connectionsMu` (`exiting`); or the call has `returned`. -/
inductive Phase where
  | running
  | exiting (err : Option GoError)
  | returned (err : Option GoError)
  deriving DecidableEq, Repr

/-- The state of a call of `processMessages` at a point of its schedule:
its phase, the registry, the mutex, and the events so far. -/
structure LoopResult where
  phase : Phase
  wsconn : wsConnections
  connectionsMu : MutexState
  trace : List Event
  deriving DecidableEq, Repr

/-- What the call has returned to its caller: `none` as long as it has not
returned. -/
def LoopResult.result (r : LoopResult) : Option (Option GoError) :=
  match r.phase with
  | Phase.returned err => some err
  | _ => none

/-- The value with which the `for` loop has executed its `return`: `none` as
long as the loop is running. -/
def LoopResult.loopReturn (r : LoopResult) : Option (Option GoError) :=
  match r.phase with
  | Phase.running => none
  | Phase.exiting err => some err
  | Phase.returned err => some err

/-- The connection value `processMessages` builds for a new session. -/
def newConnection (wsconn : wsConnections) (connectionId : connectionID) : connection :=
  { id := connectionId
    fromBackend := Chan.make wsconn.connectionMessageBuffer
    transportClosed := false }

/-- One step of the schedule of the session `connId`.

* `select`: while the loop is running, the body of the loop for the case
  that fires; afterwards there is no `select` any more.
* `push`: with `connectionsMu` held the call waits at `Lock()` (a later
  `push` step is its next try); with it free the call runs, and either
  returns (and unlocks) or parks at its send, keeping `connectionsMu`.
* `receive`: the loop of another session takes a message from its queue;
  only this session's own loop receives from this session's queue.
* `deferred`: once the loop has returned and `connectionsMu` is free, the
  deferred `deleteConnection` (which uses only `conn.id`) removes the session
  and the call returns; with `connectionsMu` held it waits at `Lock()` (a
  later `deferred` step is its next try). -/
def sessionStep (connId : connectionID) (onMessageReceived : onMgsReceivedFunc)
    (s : LoopResult) : Step → LoopResult
  | Step.select ev =>
    match s.phase with
    | Phase.running =>
      match selectCase s.wsconn s.connectionsMu connId onMessageReceived ev with
      | IterOutcome.next wsconn1 mu1 tr =>
        { phase := Phase.running, wsconn := wsconn1, connectionsMu := mu1,
          trace := s.trace ++ tr }
      | IterOutcome.ret err wsconn1 mu1 tr =>
        { phase := Phase.exiting err, wsconn := wsconn1, connectionsMu := mu1,
          trace := s.trace ++ tr }
    | Phase.exiting _ => s
    | Phase.returned _ => s
  | Step.push msg id =>
    match s.connectionsMu with
    | some _ => s
    | none =>
      match push s.wsconn msg id with
      | PushOutcome.returned _ wsconn1 => { s with wsconn := wsconn1 }
      | PushOutcome.blocked _ => { s with connectionsMu := some (msg, id) }
  | Step.receive id =>
    if id = connId then s
    else
      match receiveFromBackend s.wsconn s.connectionsMu id with
      | none => s
      | some (_, wsconn1, mu1) => { s with wsconn := wsconn1, connectionsMu := mu1 }
  | Step.deferred =>
    match s.phase with
    | Phase.exiting err =>
      match s.connectionsMu with
      | none =>
        { s with
          phase := Phase.returned err
          wsconn := deleteConnection s.wsconn (newConnection s.wsconn connId) }
      | some _ => s
    | Phase.running => s
    | Phase.returned _ => s

/-- The steps of a schedule, one after the other. -/
def runSteps (connId : connectionID) (onMessageReceived : onMgsReceivedFunc) :
    List Step → LoopResult → LoopResult
  | [], s => s
  | st :: rest, s =>
    runSteps connId onMessageReceived rest (sessionStep connId onMessageReceived s st)

/-- The method `processMessages` from its `for` loop on, along a schedule:
the loop and, once it has executed a `return`, the deferred
`deleteConnection`.  It starts where `addConnection` leaves off, with the
loop running and `connectionsMu` free. -/
def relayLoop (connId : connectionID) (onMessageReceived : onMgsReceivedFunc)
    (sched : List Step) (wsconn : wsConnections) : LoopResult :=
  runSteps connId onMessageReceived sched
    { phase := Phase.running, wsconn := wsconn, connectionsMu := none, trace := [] }

/-- The method `processMessages` along a schedule: `addConnection`, then the
relay loop, then the deferred `deleteConnection`.  `wsconn` is the registry
that `addConnection` finds when it holds `connectionsMu`.  The reader
goroutine appears through what it hands to the loop, the `fromClient` and
`readError` events of the schedule. -/
def processMessages (wsconn : wsConnections) (connectionId : connectionID)
    (onMessageReceived : onMgsReceivedFunc) (sched : List Step) : LoopResult :=
  relayLoop connectionId onMessageReceived sched
    (addConnection wsconn (newConnection wsconn connectionId))

/-! ## net/http headers -/

/-- The predicate `validHeaderFieldByte` of `net/textproto`: an RFC 7230
token character. -/
def validHeaderFieldByte (c : Char) : Bool :=
  c.isAlphanum || "!#$%&'*+-.^_`|~".toList.contains c

/-- The letter-case loop of `textproto.CanonicalMIMEHeaderKey`. -/
def canonicalLoop : Bool → List Char → List Char
  | _, [] => []
  | upper, c :: rest =>
    let c1 := if upper && c.isLower then c.toUpper
      else if !upper && c.isUpper then c.toLower else c
    c1 :: canonicalLoop (c1 == '-') rest

/-- The function `textproto.CanonicalMIMEHeaderKey`: a key with a byte that is
not a token character is returned unchanged. -/
def CanonicalMIMEHeaderKey (s : String) : String :=
  if s.toList.all validHeaderFieldByte then String.mk (canonicalLoop true s.toList) else s

/-- The map index `h[key]`, `nil` for a missing key. -/
def headerValues : Header → String → List String
  | [], _ => []
  | (k, vs) :: rest, key => if k = key then vs else headerValues rest key

/-- The map assignment `h[key] = vs`. -/
def headerSet : Header → String → List String → Header
  | [], key, vs => [(key, vs)]
  | (k, old) :: rest, key, vs =>
    if k = key then (k, vs) :: rest else (k, old) :: headerSet rest key vs

/-- The method `Header.Add`: it appends `value` to the values of the
canonical key. -/
def Header.Add (h : Header) (key value : String) : Header :=
  headerSet h (CanonicalMIMEHeaderKey key)
    (headerValues h (CanonicalMIMEHeaderKey key) ++ [value])

/-- The method `Header.Get`: the first value of the canonical key, or `""`. -/
def Header.Get (h : Header) (key : String) : String :=
  match headerValues h (CanonicalMIMEHeaderKey key) with
  | [] => ""
  | v :: _ => v

/-! ## http_handlers.go -/

/-- The constant `ConnectionIDHeaderKey`. -/
def ConnectionIDHeaderKey : String := "X-WSGW-CONNECTION-ID"

/-- The type `appURLs` of server.go, the implementation of `applicationURLs`. -/
structure appURLs where
  baseUrl : String

/-- The method `connecting`. -/
def appURLs.connecting (u : appURLs) : String := u.baseUrl ++ "/ws/connecting"

/-- The method `disconnected`. -/
def appURLs.disconnected (u : appURLs) : String := u.baseUrl ++ "/ws/disconnected"

/-- The result of `client.Do(request)`: an error, or a response with its
status code. -/
inductive DoResult where
  | requestErr
  | response (statusCode : Nat)
  deriving DecidableEq, Repr

/-- The library calls of `notifyAppOfWsConnectionChange`: whether
`http.NewRequest(http.MethodPost, url, nil)` succeeds, and what
`client.Do` yields for a request to `url` with a given header. -/
structure Backend where
  newRequestOk : String → Bool
  clientDo : String → Header → DoResult

/-- The function `notifyAppOfWsConnectionChange`.  The result is the returned
boolean, the header of the incoming request afterwards (`request.Header =
g.Request.Header` shares the map, so `Add` changes it too) and the events. -/
def notifyAppOfWsConnectionChange (env : Backend) (notificationUrl : String)
    (connId : connectionID) (gRequestHeader : Header) : Bool × Header × List Event :=
  if env.newRequestOk notificationUrl then
    let header := Header.Add gRequestHeader ConnectionIDHeaderKey connId
    match env.clientDo notificationUrl header with
    | DoResult.requestErr =>
      (false, header, [Event.clientDo notificationUrl header, Event.abortWithStatus 500])
    | DoResult.response statusCode =>
      if statusCode = 401 then
        (false, header, [Event.clientDo notificationUrl header, Event.abortWithStatus 401])
      else if statusCode ≠ 200 then
        (false, header, [Event.clientDo notificationUrl header, Event.abortWithStatus 500])
      else (true, header, [Event.clientDo notificationUrl header])
  else (false, gRequestHeader, [Event.abortWithStatus 500])

/-- What one `/connect` request brings: its headers, the identifier
`createID()` yields for it, whether `websocket.Accept` succeeds, and the
schedule of the session. -/
structure ConnectInput where
  header : Header
  connId : connectionID
  acceptOk : Bool
  sched : List Step

/-- The result of the handler: the registry, the request header, the events,
and whether the handler function has returned. -/
structure ConnectResult where
  wsconn : wsConnections
  header : Header
  trace : List Event
  finished : Bool
  deriving DecidableEq, Repr

/-- The handler that `connectHandler` returns. -/
def connectHandler (env : Backend) (appUrls : appURLs) (ws : wsConnections)
    (onMessageReceived : onMgsReceivedFunc) (inp : ConnectInput) : ConnectResult :=
  let connId := inp.connId
  let n1 := notifyAppOfWsConnectionChange env appUrls.connecting connId inp.header
  if n1.1 then
    if inp.acceptOk then
      let r := processMessages ws connId onMessageReceived inp.sched
      let started := n1.2.2 ++ [Event.accept true, Event.processMessagesStart connId] ++ r.trace
      match r.result with
      | none =>
        { wsconn := r.wsconn, header := n1.2.1, trace := started, finished := false }
      | some subscriptionError =>
        let n2 := notifyAppOfWsConnectionChange env appUrls.disconnected connId n1.2.1
        { wsconn := r.wsconn
          header := n2.2.1
          trace := started ++ [Event.processMessagesReturn connId subscriptionError]
            ++ n2.2.2 ++ [Event.wsConnClose]
          finished := true }
    else
      { wsconn := ws, header := n1.2.1
        trace := n1.2.2 ++ [Event.accept false, Event.abortWithStatus 500]
        finished := true }
  else { wsconn := ws, header := n1.2.1, trace := n1.2.2, finished := true }

/-- The value `json.Unmarshal` stores into an `interface{}`. -/
inductive JsonValue where
  | null
  | bool (b : Bool)
  | number (text : String)
  | string (s : String)
  | array (elems : List JsonValue)
  | object (members : List (String × JsonValue))

/-- A request to `POST /message/:connectionId`: the path parameter and the
result of `io.ReadAll(g.Request.Body)`. -/
structure PushRequest where
  param : String
  body : Except GoError String

/-- The result of the push handler: the status written (`none` while the
handler is parked inside `push`), the registry, and the calls of `ws.push`. -/
structure PushResponse where
  status : Option Nat
  wsconn : wsConnections
  pushCalls : List (String × connectionID)
  deriving DecidableEq, Repr

/-- The handler that `pushHandler` returns; `unmarshal` is `json.Unmarshal`
into an `interface{}`. -/
def pushHandler (unmarshal : String → Except GoError JsonValue) (ws : wsConnections)
    (req : PushRequest) : PushResponse :=
  let connectionIdStr := req.param
  if connectionIdStr = "" then { status := some 400, wsconn := ws, pushCalls := [] }
  else
    match req.body with
    | Except.error _ => { status := some 500, wsconn := ws, pushCalls := [] }
    | Except.ok requestBody =>
      match unmarshal requestBody with
      | Except.error _ => { status := some 400, wsconn := ws, pushCalls := [] }
      | Except.ok (JsonValue.string bodyAsString) =>
        match push ws bodyAsString connectionIdStr with
        | PushOutcome.blocked ws1 =>
          { status := none, wsconn := ws1, pushCalls := [(bodyAsString, connectionIdStr)] }
        | PushOutcome.returned errPush ws1 =>
          if errPush = some errConnectionNotFound then
            { status := some 404, wsconn := ws1, pushCalls := [(bodyAsString, connectionIdStr)] }
          else
            { status := some 500, wsconn := ws1, pushCalls := [(bodyAsString, connectionIdStr)] }
      | Except.ok _ => { status := some 400, wsconn := ws, pushCalls := [] }

/-! ## Observations on states and traces -/

/-- The messages buffered in the outbound queue of the session registered
under `connId` (none when no session is registered). -/
def pendingOutbound (wsconn : wsConnections) (connId : connectionID) : List String :=
  match mapGet wsconn.wsMap connId with
  | none => []
  | some conn => conn.fromBackend.buf

/-- Whether an event is a `client.Do` call for `url`. -/
def Event.isClientDoTo (url : String) : Event → Bool
  | Event.clientDo u _ => u == url
  | _ => false

/-- Whether an event is a `client.Do` call at all. -/
def Event.isClientDo : Event → Bool
  | Event.clientDo _ _ => true
  | _ => false

/-- A registry with one session, `a`, whose outbound queue holds 16
messages, the capacity `newWsConnections` configures. -/
def fullRegistry : wsConnections :=
  { connectionMessageBuffer := 16
    wsMap := [("a", { id := "a"
                      fromBackend := { cap := 16, buf := List.replicate 16 "m" }
                      transportClosed := false }),
              ("b", { id := "b"
                      fromBackend := { cap := 16, buf := [] }
                      transportClosed := false })] }

/-- A registry with one session, `a`, whose outbound queue is empty. -/
def oneSession : wsConnections :=
  addConnection newWsConnections (newConnection newWsConnections "a")

/-- A decoder standing for `json.Unmarshal` on three bodies. -/
def sampleUnmarshal (body : String) : Except GoError JsonValue :=
  if body = "\"hello\"" then Except.ok (JsonValue.string "hello")
  else if body = "42" then Except.ok (JsonValue.number "42")
  else if body = "null" then Except.ok JsonValue.null
  else Except.error (GoError.other "invalid character")

/-- The events that end the relay loop in the state `s`, with the value
returned for each: an outbound message is received and `writeTimeout` with
the 5-second timeout yields an error (that error is returned), the reader
signals a terminal read error (nil is returned), the context is done
(`ctx.Err()` is returned). -/
def endsLoop (s : LoopResult) (connId : connectionID) :
    SelectEvent → Option GoError → Prop
  | SelectEvent.fromBackend writeErr seconds expired, err =>
    (receiveFromBackend s.wsconn s.connectionsMu connId).isSome = true ∧
      writeTimeout 5 writeErr seconds expired ≠ none ∧
      err = writeTimeout 5 writeErr seconds expired
  | SelectEvent.fromClient _, _ => False
  | SelectEvent.readError _, err => err = none
  | SelectEvent.ctxDone cerr, err => err = some cerr

instance endsLoopDecidable (s : LoopResult) (connId : connectionID)
    (ev : SelectEvent) (err : Option GoError) : Decidable (endsLoop s connId ev err) := by
  cases ev with
  | fromBackend writeErr seconds expired => unfold endsLoop; infer_instance
  | fromClient msg => unfold endsLoop; infer_instance
  | readError rerr => unfold endsLoop; infer_instance
  | ctxDone cerr => unfold endsLoop; infer_instance

/-- The registration invariant of a run: the session is registered under
`connId` in every phase before the return, and not registered after it. -/
def registeredUntilReturn (connId : connectionID) (s : LoopResult) : Prop :=
  match s.phase with
  | Phase.running => connId ∈ mapKeys s.wsconn.wsMap
  | Phase.exiting _ => connId ∈ mapKeys s.wsconn.wsMap
  | Phase.returned _ => connId ∉ mapKeys s.wsconn.wsMap

/-- A schedule for session `a`: one message is pushed and written, then
seventeen more are pushed (sixteen fill the queue, the seventeenth parks),
then the context is done. -/
def stuckSchedule : List Step :=
  [Step.push "m0" "a", Step.select (SelectEvent.fromBackend none)] ++
    List.replicate 17 (Step.push "m" "a") ++
    [Step.select (SelectEvent.ctxDone (GoError.other "context canceled"))]

/-- What the backend reads from a `client.Do` call: the URL called and
`req.Header.Get(ConnectionIDHeaderKey)`, as the handlers of the mock
application in test/mock_app.go do. -/
def Event.backendReads : Event → Option (String × String)
  | Event.clientDo url header => some (url, Header.Get header ConnectionIDHeaderKey)
  | _ => none

/-- The constant `badCredential` of test/mock_app.go. -/
def badCredential : String := "bad-credential"

/-- The mock application of test/mock_app.go as a backend: `/ws/connecting`
answers 500 without an `Authorization` header, 401 when its first value is
`badCredential` and 200 otherwise; `/ws/disconnected` answers 200. -/
def mockApp (appUrls : appURLs) : Backend :=
  { newRequestOk := fun _ => true
    clientDo := fun url header =>
      if url = appUrls.connecting then
        match headerValues header "Authorization" with
        | [] => DoResult.response 500
        | cred :: _ =>
          if cred = badCredential then DoResult.response 401 else DoResult.response 200
      else DoResult.response 200 }

/-- The URLs of a backend at `http://app`. -/
def sampleUrls : appURLs := { baseUrl := "http://app" }

/-- A `/connect` request with bad credentials (TestConnectingWithBadCredentials). -/
def badCredentialInput : ConnectInput :=
  { header := [("Authorization", [badCredential])]
    connId := "c0000000000000000001"
    acceptOk := true
    sched := [Step.select (SelectEvent.readError (GoError.other "EOF"))] }

/-- A `/connect` request with good credentials whose client closes the
socket after one message (TestDisconnection). -/
def happyInput : ConnectInput :=
  { header := [("Authorization", ["some credentials"])]
    connId := "c0000000000000000002"
    acceptOk := true
    sched := [Step.select (SelectEvent.fromClient "hi"),
              Step.select (SelectEvent.readError (GoError.other "StatusNormalClosure")),
              Step.deferred] }

/-- A `/connect` request whose client sends an `X-WSGW-CONNECTION-ID` header
of its own (stored under its canonical key by net/http). -/
def spoofedInput : ConnectInput :=
  { header := [("Authorization", ["some credentials"]),
               ("X-Wsgw-Connection-Id", ["spoofed"])]
    connId := "c0000000000000000003"
    acceptOk := true
    sched := [Step.select (SelectEvent.readError (GoError.other "StatusNormalClosure")),
              Step.deferred] }

/-- The arguments of a call of the Message Sink callback, if the event is
one. -/
def Event.sinkCall : Event → Option (String × connectionID)
  | Event.onMessageReceived msg connId _ => some (msg, connId)
  | _ => none

/-- The calls of the Message Sink callback in a trace, in order. -/
def sinkCalls (trace : List Event) : List (String × connectionID) :=
  trace.filterMap Event.sinkCall

/-- The message a step hands to the relay loop on `fromClient`, if any. -/
def Step.inbound : Step → Option String
  | Step.select (SelectEvent.fromClient msg) => some msg
  | _ => none

/-- The messages a schedule hands to the relay loop on `fromClient`. -/
def inboundMessages (sched : List Step) : List String :=
  sched.filterMap Step.inbound

/-- A Message Sink callback that fails on every message. -/
def failingSink : onMgsReceivedFunc :=
  fun _ _ => some (GoError.other "backend unreachable")

/-! ## The registry map -/

theorem mapGet_eq_none_iff (m : List (connectionID × connection)) (id : connectionID) :
    mapGet m id = none ↔ id ∉ mapKeys m := by
  induction m with
  | nil => simp [mapGet, mapKeys]
  | cons kc rest ih =>
    obtain ⟨k, c⟩ := kc
    by_cases hk : k = id
    · simp [mapGet, mapKeys, hk]
    · have hk2 : ¬ id = k := fun h => hk h.symm
      simp only [mapGet, if_neg hk, ih, mapKeys, List.map_cons, List.mem_cons, hk2, false_or]

theorem mapGet_mapSet_same (m : List (connectionID × connection)) (id : connectionID)
    (conn : connection) : mapGet (mapSet m id conn) id = some conn := by
  induction m with
  | nil => simp [mapSet, mapGet]
  | cons kc rest ih =>
    obtain ⟨k, c⟩ := kc
    by_cases hk : k = id
    · simp [mapSet, mapGet, hk]
    · simp [mapSet, mapGet, hk, ih]

theorem mapGet_mapSet_ne (m : List (connectionID × connection)) (id other : connectionID)
    (conn : connection) (h : other ≠ id) :
    mapGet (mapSet m id conn) other = mapGet m other := by
  have h2 : ¬ id = other := fun e => h e.symm
  induction m with
  | nil => simp [mapSet, mapGet, h2]
  | cons kc rest ih =>
    obtain ⟨k, c⟩ := kc
    by_cases hk : k = id
    · subst hk
      simp [mapSet, mapGet, h2]
    · by_cases hko : k = other
      · subst hko
        simp [mapSet, mapGet, hk]
      · simp [mapSet, mapGet, hk, hko, ih]

theorem mapKeys_mapSet_of_get (m : List (connectionID × connection)) (id : connectionID)
    (old conn : connection) (h : mapGet m id = some old) :
    mapKeys (mapSet m id conn) = mapKeys m := by
  induction m with
  | nil => simp [mapGet] at h
  | cons kc rest ih =>
    obtain ⟨k, c⟩ := kc
    by_cases hk : k = id
    · simp [mapSet, mapKeys, hk]
    · simp only [mapGet, if_neg hk] at h
      have := ih h
      simp only [mapKeys] at this
      simp [mapSet, mapKeys, hk, this]

theorem mem_mapKeys_mapSet (m : List (connectionID × connection)) (id : connectionID)
    (conn : connection) : id ∈ mapKeys (mapSet m id conn) := by
  have h := mapGet_mapSet_same m id conn
  by_contra hc
  rw [← mapGet_eq_none_iff] at hc
  rw [hc] at h
  exact absurd h (by simp)

theorem not_mem_mapKeys_mapDelete (m : List (connectionID × connection))
    (id : connectionID) : id ∉ mapKeys (mapDelete m id) := by
  induction m with
  | nil => simp [mapDelete, mapKeys]
  | cons kc rest ih =>
    obtain ⟨k, c⟩ := kc
    by_cases hk : k = id
    · simpa [mapDelete, hk] using ih
    · have hk2 : ¬ id = k := fun e => hk e.symm
      simp only [mapKeys] at ih
      simp [mapDelete, mapKeys, hk, hk2, ih]

/-! ## push -/

/-- The scan of `push` finds exactly the entry that indexing the scanned
entries yields. -/
theorem pushLoop_eq (wsconn : wsConnections) (msg : String) (connId : connectionID)
    (l : List (connectionID × connection)) :
    pushLoop wsconn msg connId l =
      match mapGet l connId with
      | none => PushOutcome.returned (some errConnectionNotFound) wsconn
      | some conn =>
        match conn.fromBackend.send msg with
        | some ch =>
          PushOutcome.returned none
            { wsconn with
              wsMap := mapSet wsconn.wsMap connId { conn with fromBackend := ch } }
        | none => PushOutcome.blocked wsconn := by
  induction l with
  | nil => simp [pushLoop, mapGet]
  | cons kc rest ih =>
    obtain ⟨k, c⟩ := kc
    by_cases hk : k = connId
    · subst hk
      simp [pushLoop, mapGet]
    · simp [pushLoop, mapGet, hk, ih]

theorem push_eq (wsconn : wsConnections) (msg : String) (connId : connectionID) :
    push wsconn msg connId =
      match mapGet wsconn.wsMap connId with
      | none => PushOutcome.returned (some errConnectionNotFound) wsconn
      | some conn =>
        match conn.fromBackend.send msg with
        | some ch =>
          PushOutcome.returned none
            { wsconn with
              wsMap := mapSet wsconn.wsMap connId { conn with fromBackend := ch } }
        | none => PushOutcome.blocked wsconn :=
  pushLoop_eq wsconn msg connId wsconn.wsMap

/-- A push that returns leaves the set of registered identifiers as it was. -/
theorem push_mapKeys (wsconn wsconn1 : wsConnections) (msg : String) (connId : connectionID)
    (err : Option GoError) (h : push wsconn msg connId = PushOutcome.returned err wsconn1) :
    mapKeys wsconn1.wsMap = mapKeys wsconn.wsMap := by
  rw [push_eq] at h
  cases hg : mapGet wsconn.wsMap connId with
  | none =>
    simp only [hg] at h
    injection h with _ h2
    rw [← h2]
  | some conn =>
    simp only [hg] at h
    cases hs : conn.fromBackend.send msg with
    | none => simp [hs] at h
    | some ch =>
      simp only [hs] at h
      injection h with _ h2
      rw [← h2]
      exact mapKeys_mapSet_of_get _ _ _ _ hg

/-- C5. For every registry and every identifier that is not a key of the
registry map, `push` returns `errConnectionNotFound` and the registry it
leaves is the registry it found: the same identifiers are registered and
every session's outbound queue holds what it held. -/
theorem push_unregistered_returns_not_found (wsconn : wsConnections) (msg : String)
    (connId : connectionID) (h : connId ∉ mapKeys wsconn.wsMap) :
    push wsconn msg connId = PushOutcome.returned (some errConnectionNotFound) wsconn := by
  rw [push_eq, (mapGet_eq_none_iff wsconn.wsMap connId).mpr h]

theorem push_unregistered_returns_not_found_witness :
    "zz" ∉ mapKeys fullRegistry.wsMap ∧
      push fullRegistry "hello" "zz"
        = PushOutcome.returned (some errConnectionNotFound) fullRegistry :=
  ⟨by decide, push_unregistered_returns_not_found fullRegistry "hello" "zz" (by decide)⟩

/-! ## The steps of a session -/

theorem runSteps_append (connId : connectionID) (onMessageReceived : onMgsReceivedFunc)
    (pre post : List Step) :
    ∀ s : LoopResult,
      runSteps connId onMessageReceived (pre ++ post) s
        = runSteps connId onMessageReceived post (runSteps connId onMessageReceived pre s) := by
  induction pre with
  | nil => intro s; rfl
  | cons a t ih =>
    intro s
    simp only [List.cons_append, runSteps]
    exact ih _

/-- What a successful receive consists of. -/
theorem receiveFromBackend_eq_some (wsconn wsconn1 : wsConnections) (mu mu1 : MutexState)
    (id : connectionID) (msg : String)
    (h : receiveFromBackend wsconn mu id = some (msg, wsconn1, mu1)) :
    ∃ conn ch, mapGet wsconn.wsMap id = some conn ∧
      conn.fromBackend.recvWith (parkedOn mu id) = some (msg, ch) ∧
      wsconn1 = { wsconn with
                  wsMap := mapSet wsconn.wsMap id { conn with fromBackend := ch } } ∧
      mu1 = (if (parkedOn mu id).isSome then none else mu) := by
  unfold receiveFromBackend at h
  cases hg : mapGet wsconn.wsMap id with
  | none => simp [hg] at h
  | some conn =>
    cases hr : conn.fromBackend.recvWith (parkedOn mu id) with
    | none => simp [hg, hr] at h
    | some p =>
      obtain ⟨m, ch⟩ := p
      simp only [hg, hr, Option.some.injEq, Prod.mk.injEq] at h
      obtain ⟨h1, h2, h3⟩ := h
      exact ⟨conn, ch, rfl, by rw [hr, h1], h2.symm, h3.symm⟩

theorem receiveFromBackend_mapKeys (wsconn wsconn1 : wsConnections) (mu mu1 : MutexState)
    (id : connectionID) (msg : String)
    (h : receiveFromBackend wsconn mu id = some (msg, wsconn1, mu1)) :
    mapKeys wsconn1.wsMap = mapKeys wsconn.wsMap := by
  obtain ⟨conn, ch, hg, _, hws, _⟩ := receiveFromBackend_eq_some _ _ _ _ _ _ h
  rw [hws]
  exact mapKeys_mapSet_of_get _ _ _ _ hg

/-- A receive by one session leaves every other session's entry alone. -/
theorem receiveFromBackend_mapGet_ne (wsconn wsconn1 : wsConnections) (mu mu1 : MutexState)
    (id other : connectionID) (msg : String) (hne : other ≠ id)
    (h : receiveFromBackend wsconn mu id = some (msg, wsconn1, mu1)) :
    mapGet wsconn1.wsMap other = mapGet wsconn.wsMap other := by
  obtain ⟨conn, ch, _, _, hws, _⟩ := receiveFromBackend_eq_some _ _ _ _ _ _ h
  rw [hws]
  exact mapGet_mapSet_ne _ _ _ _ hne

theorem selectCase_mapKeys (wsconn : wsConnections) (mu : MutexState) (connId : connectionID)
    (onMessageReceived : onMgsReceivedFunc) (ev : SelectEvent) :
    match selectCase wsconn mu connId onMessageReceived ev with
    | IterOutcome.next wsconn1 _ _ => mapKeys wsconn1.wsMap = mapKeys wsconn.wsMap
    | IterOutcome.ret _ wsconn1 _ _ => mapKeys wsconn1.wsMap = mapKeys wsconn.wsMap := by
  cases ev with
  | fromBackend writeErr seconds expired =>
    cases hr : receiveFromBackend wsconn mu connId with
    | none => simp [selectCase, hr]
    | some p =>
      obtain ⟨m, ws1, mu1⟩ := p
      have hk := receiveFromBackend_mapKeys _ _ _ _ _ _ hr
      cases hw : writeTimeout 5 writeErr seconds expired with
      | none => simpa [selectCase, hr, hw] using hk
      | some e => simpa [selectCase, hr, hw] using hk
  | fromClient msg => simp [selectCase]
  | readError e => simp [selectCase]
  | ctxDone e => simp [selectCase]

/-- Every step keeps the registration invariant: only the deferred
`deleteConnection` removes the key, and with it the call returns. -/
theorem sessionStep_registered (connId : connectionID)
    (onMessageReceived : onMgsReceivedFunc) (s : LoopResult) (st : Step)
    (h : registeredUntilReturn connId s) :
    registeredUntilReturn connId (sessionStep connId onMessageReceived s st) := by
  cases st with
  | select ev =>
    cases hp : s.phase with
    | running =>
      have hin : connId ∈ mapKeys s.wsconn.wsMap := by
        simpa [registeredUntilReturn, hp] using h
      have hk := selectCase_mapKeys s.wsconn s.connectionsMu connId onMessageReceived ev
      cases hs : selectCase s.wsconn s.connectionsMu connId onMessageReceived ev with
      | next ws1 mu1 tr =>
        rw [hs] at hk
        simp only at hk
        simp only [sessionStep, hp, hs, registeredUntilReturn, hk]
        exact hin
      | ret err ws1 mu1 tr =>
        rw [hs] at hk
        simp only at hk
        simp only [sessionStep, hp, hs, registeredUntilReturn, hk]
        exact hin
    | exiting e => simpa [sessionStep, hp] using h
    | returned e => simpa [sessionStep, hp] using h
  | push msg id =>
    cases hmu : s.connectionsMu with
    | some p => simpa [sessionStep, hmu] using h
    | none =>
      cases hpush : push s.wsconn msg id with
      | returned err ws1 =>
        have hk := push_mapKeys _ _ _ _ _ hpush
        simp only [sessionStep, hmu, hpush]
        unfold registeredUntilReturn at h ⊢
        simp only [hk]
        exact h
      | blocked w =>
        simp only [sessionStep, hmu, hpush]
        unfold registeredUntilReturn at h ⊢
        exact h
  | receive id =>
    by_cases hid : id = connId
    · simpa [sessionStep, hid] using h
    · cases hr : receiveFromBackend s.wsconn s.connectionsMu id with
      | none => simpa [sessionStep, hid, hr] using h
      | some p =>
        obtain ⟨m, ws1, mu1⟩ := p
        have hk := receiveFromBackend_mapKeys _ _ _ _ _ _ hr
        simp only [sessionStep, hid, if_false, hr]
        unfold registeredUntilReturn at h ⊢
        simp only [hk]
        exact h
  | deferred =>
    cases hp : s.phase with
    | running => simpa [sessionStep, hp] using h
    | returned e => simpa [sessionStep, hp] using h
    | exiting e =>
      cases hmu : s.connectionsMu with
      | some p => simpa [sessionStep, hp, hmu] using h
      | none =>
        simp only [sessionStep, hp, hmu, registeredUntilReturn, deleteConnection,
          newConnection]
        exact not_mem_mapKeys_mapDelete _ _

theorem runSteps_registered (connId : connectionID) (onMessageReceived : onMgsReceivedFunc)
    (sched : List Step) :
    ∀ s : LoopResult, registeredUntilReturn connId s →
      registeredUntilReturn connId (runSteps connId onMessageReceived sched s) := by
  induction sched with
  | nil => intro s h; exact h
  | cons a t ih =>
    intro s h
    exact ih _ (sessionStep_registered connId onMessageReceived s a h)

theorem processMessages_registered (wsconn : wsConnections) (connectionId : connectionID)
    (onMessageReceived : onMgsReceivedFunc) (sched : List Step) :
    registeredUntilReturn connectionId
      (processMessages wsconn connectionId onMessageReceived sched) := by
  unfold processMessages relayLoop
  apply runSteps_registered
  simp only [registeredUntilReturn, addConnection, newConnection]
  exact mem_mapKeys_mapSet _ _ _

theorem loopReturn_eq_none_iff (s : LoopResult) :
    s.loopReturn = none ↔ s.phase = Phase.running := by
  cases hp : s.phase <;> simp [LoopResult.loopReturn, hp]

theorem result_eq_some_iff (s : LoopResult) (err : Option GoError) :
    s.result = some err ↔ s.phase = Phase.returned err := by
  cases hp : s.phase <;> simp [LoopResult.result, hp]

theorem result_eq_none_of_running (s : LoopResult) (h : s.phase = Phase.running) :
    s.result = none := by
  simp [LoopResult.result, h]

/-- A pass through the `select` executes a `return` exactly for the ending
events, with the value that belongs to each. -/
theorem selectCase_ret_iff (s : LoopResult) (connId : connectionID)
    (onMessageReceived : onMgsReceivedFunc) (ev : SelectEvent) (err : Option GoError) :
    (∃ wsconn1 mu1 tr,
      selectCase s.wsconn s.connectionsMu connId onMessageReceived ev
        = IterOutcome.ret err wsconn1 mu1 tr) ↔ endsLoop s connId ev err := by
  cases ev with
  | fromBackend writeErr seconds expired =>
    cases hr : receiveFromBackend s.wsconn s.connectionsMu connId with
    | none => simp [selectCase, endsLoop, hr]
    | some p =>
      obtain ⟨m, ws1, mu1⟩ := p
      cases hw : writeTimeout 5 writeErr seconds expired with
      | none => simp [selectCase, endsLoop, hr, hw]
      | some e =>
        simp [selectCase, endsLoop, hr, hw]
        exact eq_comm
  | fromClient msg => simp [selectCase, endsLoop]
  | readError e =>
    simp [selectCase, endsLoop]
    exact eq_comm
  | ctxDone e =>
    simp [selectCase, endsLoop]
    exact eq_comm

/-- From a running loop a step leaves the loop running, unless it is the
`select` of an ending event; then the loop has returned that event's value. -/
theorem sessionStep_of_running (connId : connectionID)
    (onMessageReceived : onMgsReceivedFunc) (s : LoopResult) (st : Step)
    (hrun : s.phase = Phase.running) :
    (sessionStep connId onMessageReceived s st).phase = Phase.running ∨
      ∃ ev err, st = Step.select ev ∧ endsLoop s connId ev err ∧
        (sessionStep connId onMessageReceived s st).phase = Phase.exiting err := by
  cases st with
  | select ev =>
    cases hs : selectCase s.wsconn s.connectionsMu connId onMessageReceived ev with
    | next ws1 mu1 tr =>
      left
      simp [sessionStep, hrun, hs]
    | ret err ws1 mu1 tr =>
      right
      refine ⟨ev, err, rfl, ?_, ?_⟩
      · exact (selectCase_ret_iff s connId onMessageReceived ev err).mp ⟨ws1, mu1, tr, hs⟩
      · simp [sessionStep, hrun, hs]
  | push msg id =>
    left
    cases hmu : s.connectionsMu with
    | some p => simp [sessionStep, hmu, hrun]
    | none =>
      cases hpush : push s.wsconn msg id <;> simp [sessionStep, hmu, hpush, hrun]
  | receive id =>
    left
    by_cases hid : id = connId
    · simp [sessionStep, hid, hrun]
    · cases hr : receiveFromBackend s.wsconn s.connectionsMu id with
      | none => simp [sessionStep, hid, hr, hrun]
      | some p =>
        obtain ⟨m, ws1, mu1⟩ := p
        simp [sessionStep, hid, hr, hrun]
  | deferred =>
    left
    simp [sessionStep, hrun]

/-- At an ending event a running loop executes its `return` with the
event's value. -/
theorem sessionStep_ending (connId : connectionID)
    (onMessageReceived : onMgsReceivedFunc) (s : LoopResult) (ev : SelectEvent)
    (err : Option GoError) (hrun : s.phase = Phase.running)
    (hend : endsLoop s connId ev err) :
    (sessionStep connId onMessageReceived s (Step.select ev)).phase = Phase.exiting err := by
  obtain ⟨ws1, mu1, tr, hs⟩ :=
    (selectCase_ret_iff s connId onMessageReceived ev err).mpr hend
  simp [sessionStep, hrun, hs]

/-- Before the call has returned, a step makes it return exactly when it is
the deferred `deleteConnection` at a free mutex after the loop's `return`. -/
theorem sessionStep_of_not_returned (connId : connectionID)
    (onMessageReceived : onMgsReceivedFunc) (s : LoopResult) (st : Step)
    (hres : s.result = none) :
    (sessionStep connId onMessageReceived s st).result = none ∨
      ∃ err, st = Step.deferred ∧ s.phase = Phase.exiting err ∧ s.connectionsMu = none ∧
        (sessionStep connId onMessageReceived s st).phase = Phase.returned err := by
  cases st with
  | select ev =>
    left
    cases hp : s.phase with
    | running =>
      cases hs : selectCase s.wsconn s.connectionsMu connId onMessageReceived ev <;>
        simp [sessionStep, hp, hs, LoopResult.result]
    | exiting e => simp [sessionStep, hp, LoopResult.result]
    | returned e => simp [LoopResult.result, hp] at hres
  | push msg id =>
    left
    cases hmu : s.connectionsMu with
    | some p => simpa [sessionStep, hmu] using hres
    | none =>
      cases hpush : push s.wsconn msg id <;>
        simpa [sessionStep, hmu, hpush, LoopResult.result] using hres
  | receive id =>
    left
    by_cases hid : id = connId
    · simpa [sessionStep, hid] using hres
    · cases hr : receiveFromBackend s.wsconn s.connectionsMu id with
      | none => simpa [sessionStep, hid, hr] using hres
      | some p =>
        obtain ⟨m, ws1, mu1⟩ := p
        simpa [sessionStep, hid, hr, LoopResult.result] using hres
  | deferred =>
    cases hp : s.phase with
    | running => left; simp [sessionStep, hp, LoopResult.result]
    | returned e => simp [LoopResult.result, hp] at hres
    | exiting e =>
      cases hmu : s.connectionsMu with
      | some p => left; simp [sessionStep, hp, hmu, LoopResult.result]
      | none =>
        right
        exact ⟨e, rfl, rfl, rfl, by simp [sessionStep, hp, hmu]⟩

/-- The deferred `deleteConnection` at a free mutex completes the call. -/
theorem sessionStep_deferred (connId : connectionID)
    (onMessageReceived : onMgsReceivedFunc) (s : LoopResult) (err : Option GoError)
    (hp : s.phase = Phase.exiting err) (hmu : s.connectionsMu = none) :
    sessionStep connId onMessageReceived s Step.deferred
      = { s with
          phase := Phase.returned err
          wsconn := deleteConnection s.wsconn (newConnection s.wsconn connId) } := by
  simp [sessionStep, hp, hmu]

/-- Once the loop has returned a value, that value stays. -/
theorem sessionStep_loopReturn (connId : connectionID)
    (onMessageReceived : onMgsReceivedFunc) (s : LoopResult) (st : Step)
    (err : Option GoError) (h : s.loopReturn = some err) :
    (sessionStep connId onMessageReceived s st).loopReturn = some err := by
  cases st with
  | select ev =>
    cases hp : s.phase with
    | running => simp [LoopResult.loopReturn, hp] at h
    | exiting e => simpa [sessionStep, hp] using h
    | returned e => simpa [sessionStep, hp] using h
  | push msg id =>
    cases hmu : s.connectionsMu with
    | some p => simpa [sessionStep, hmu] using h
    | none =>
      cases hpush : push s.wsconn msg id <;>
        simpa [sessionStep, hmu, hpush, LoopResult.loopReturn] using h
  | receive id =>
    by_cases hid : id = connId
    · simpa [sessionStep, hid] using h
    · cases hr : receiveFromBackend s.wsconn s.connectionsMu id with
      | none => simpa [sessionStep, hid, hr] using h
      | some p =>
        obtain ⟨m, ws1, mu1⟩ := p
        simpa [sessionStep, hid, hr, LoopResult.loopReturn] using h
  | deferred =>
    cases hp : s.phase with
    | running => simp [LoopResult.loopReturn, hp] at h
    | returned e => simpa [sessionStep, hp] using h
    | exiting e =>
      cases hmu : s.connectionsMu with
      | some p => simpa [sessionStep, hp, hmu] using h
      | none => simpa [sessionStep, hp, hmu, LoopResult.loopReturn] using h

theorem runSteps_loopReturn (connId : connectionID) (onMessageReceived : onMgsReceivedFunc)
    (err : Option GoError) (sched : List Step) :
    ∀ s : LoopResult, s.loopReturn = some err →
      (runSteps connId onMessageReceived sched s).loopReturn = some err := by
  induction sched with
  | nil => intro s h; exact h
  | cons a t ih =>
    intro s h
    exact ih _ (sessionStep_loopReturn connId onMessageReceived s a err h)

/-- Once the call has returned a value, that value stays. -/
theorem sessionStep_result (connId : connectionID)
    (onMessageReceived : onMgsReceivedFunc) (s : LoopResult) (st : Step)
    (err : Option GoError) (h : s.result = some err) :
    (sessionStep connId onMessageReceived s st).result = some err := by
  have hp : s.phase = Phase.returned err := (result_eq_some_iff s err).mp h
  cases st with
  | select ev => simpa [sessionStep, hp] using h
  | push msg id =>
    cases hmu : s.connectionsMu with
    | some p => simpa [sessionStep, hmu] using h
    | none =>
      cases hpush : push s.wsconn msg id <;>
        simpa [sessionStep, hmu, hpush, LoopResult.result] using h
  | receive id =>
    by_cases hid : id = connId
    · simpa [sessionStep, hid] using h
    · cases hr : receiveFromBackend s.wsconn s.connectionsMu id with
      | none => simpa [sessionStep, hid, hr] using h
      | some p =>
        obtain ⟨m, ws1, mu1⟩ := p
        simpa [sessionStep, hid, hr, LoopResult.result] using h
  | deferred => simpa [sessionStep, hp] using h

theorem runSteps_result (connId : connectionID) (onMessageReceived : onMgsReceivedFunc)
    (err : Option GoError) (sched : List Step) :
    ∀ s : LoopResult, s.result = some err →
      (runSteps connId onMessageReceived sched s).result = some err := by
  induction sched with
  | nil => intro s h; exact h
  | cons a t ih =>
    intro s h
    exact ih _ (sessionStep_result connId onMessageReceived s a err h)

/-- The loop has returned `err` exactly when the schedule reaches, with the
loop running, the `select` of an event that ends it with `err`. -/
theorem runSteps_loopReturn_iff (connId : connectionID)
    (onMessageReceived : onMgsReceivedFunc) (err : Option GoError) :
    ∀ (sched : List Step) (s : LoopResult), s.phase = Phase.running →
      ((runSteps connId onMessageReceived sched s).loopReturn = some err ↔
        ∃ pre ev rest, sched = pre ++ Step.select ev :: rest ∧
          (runSteps connId onMessageReceived pre s).phase = Phase.running ∧
          endsLoop (runSteps connId onMessageReceived pre s) connId ev err) := by
  intro sched
  induction sched with
  | nil =>
    intro s hrun
    simp [runSteps, LoopResult.loopReturn, hrun]
  | cons a t ih =>
    intro s hrun
    constructor
    · intro h
      simp only [runSteps] at h
      rcases sessionStep_of_running connId onMessageReceived s a hrun with
        hnext | ⟨ev, err1, ha, hend, hexit⟩
      · obtain ⟨pre, ev, rest, hsplit, hpre, hend⟩ := (ih _ hnext).mp h
        exact ⟨a :: pre, ev, rest, by simp [hsplit], by simpa [runSteps] using hpre,
          by simpa [runSteps] using hend⟩
      · have h1 : (sessionStep connId onMessageReceived s a).loopReturn = some err1 := by
          simp [LoopResult.loopReturn, hexit]
        have h2 := runSteps_loopReturn connId onMessageReceived err1 t _ h1
        rw [h] at h2
        injection h2 with h3
        subst h3
        exact ⟨[], ev, t, by simp [ha], by simpa [runSteps] using hrun,
          by simpa [runSteps] using hend⟩
    · rintro ⟨pre, ev, rest, hsplit, hpre, hend⟩
      cases pre with
      | nil =>
        simp only [List.nil_append, List.cons.injEq] at hsplit
        obtain ⟨ha, ht⟩ := hsplit
        subst ha
        simp only [runSteps] at hend ⊢
        have hexit := sessionStep_ending connId onMessageReceived s ev err hrun hend
        exact runSteps_loopReturn connId onMessageReceived err t _
          (by simp [LoopResult.loopReturn, hexit])
      | cons p pre1 =>
        simp only [List.cons_append, List.cons.injEq] at hsplit
        obtain ⟨hp, ht⟩ := hsplit
        subst hp
        simp only [runSteps] at hpre hend ⊢
        rcases sessionStep_of_running connId onMessageReceived s a hrun with
          hnext | ⟨ev1, err1, _, _, hexit⟩
        · exact (ih _ hnext).mpr ⟨pre1, ev, rest, ht, hpre, hend⟩
        · have h1 : (sessionStep connId onMessageReceived s a).loopReturn = some err1 := by
            simp [LoopResult.loopReturn, hexit]
          have h2 := runSteps_loopReturn connId onMessageReceived err1 pre1 _ h1
          rw [(loopReturn_eq_none_iff _).mpr hpre] at h2
          exact absurd h2 (by simp)

/-- The call has returned `err` exactly when the schedule reaches, after the
loop has returned `err` and with `connectionsMu` free, the deferred
`deleteConnection`. -/
theorem runSteps_result_iff (connId : connectionID)
    (onMessageReceived : onMgsReceivedFunc) (err : Option GoError) :
    ∀ (sched : List Step) (s : LoopResult), s.result = none →
      ((runSteps connId onMessageReceived sched s).result = some err ↔
        ∃ pre rest, sched = pre ++ Step.deferred :: rest ∧
          (runSteps connId onMessageReceived pre s).phase = Phase.exiting err ∧
          (runSteps connId onMessageReceived pre s).connectionsMu = none) := by
  intro sched
  induction sched with
  | nil =>
    intro s hres
    simp [runSteps, hres]
  | cons a t ih =>
    intro s hres
    constructor
    · intro h
      simp only [runSteps] at h
      rcases sessionStep_of_not_returned connId onMessageReceived s a hres with
        hnext | ⟨err1, ha, hp, hmu, hret⟩
      · obtain ⟨pre, rest, hsplit, hpre, hmu⟩ := (ih _ hnext).mp h
        exact ⟨a :: pre, rest, by simp [hsplit], by simpa [runSteps] using hpre,
          by simpa [runSteps] using hmu⟩
      · have h1 : (sessionStep connId onMessageReceived s a).result = some err1 :=
          (result_eq_some_iff _ _).mpr hret
        have h2 := runSteps_result connId onMessageReceived err1 t _ h1
        rw [h] at h2
        injection h2 with h3
        subst h3
        exact ⟨[], t, by simp [ha], by simpa [runSteps] using hp,
          by simpa [runSteps] using hmu⟩
    · rintro ⟨pre, rest, hsplit, hpre, hmu⟩
      cases pre with
      | nil =>
        simp only [List.nil_append, List.cons.injEq] at hsplit
        obtain ⟨ha, ht⟩ := hsplit
        subst ha
        simp only [runSteps] at hpre hmu ⊢
        apply runSteps_result
        rw [sessionStep_deferred connId onMessageReceived s err hpre hmu]
        simp [LoopResult.result]
      | cons p pre1 =>
        simp only [List.cons_append, List.cons.injEq] at hsplit
        obtain ⟨hp, ht⟩ := hsplit
        subst hp
        simp only [runSteps] at hpre hmu ⊢
        rcases sessionStep_of_not_returned connId onMessageReceived s a hres with
          hnext | ⟨err1, _, _, _, hret⟩
        · exact (ih _ hnext).mpr ⟨pre1, rest, ht, hpre, hmu⟩
        · have h1 : (sessionStep connId onMessageReceived s a).result = some err1 :=
            (result_eq_some_iff _ _).mpr hret
          have h2 := runSteps_result connId onMessageReceived err1 pre1 _ h1
          rw [(result_eq_some_iff _ _)] at h2
          rw [hpre] at h2
          exact absurd h2 (by simp)

/-- A run along `pre ++ post` goes on from the state reached after `pre`. -/
theorem processMessages_append (wsconn : wsConnections) (connectionId : connectionID)
    (onMessageReceived : onMgsReceivedFunc) (pre post : List Step) :
    processMessages wsconn connectionId onMessageReceived (pre ++ post)
      = runSteps connectionId onMessageReceived post
          (processMessages wsconn connectionId onMessageReceived pre) := by
  unfold processMessages relayLoop
  exact runSteps_append _ _ _ _ _

/-- Behind a `push` parked at this session's own queue a call whose loop has
returned stays where it is: no step of any schedule frees `connectionsMu`,
so the deferred `deleteConnection` never runs and the call never returns. -/
theorem runSteps_stuck_behind_parked_push (connId : connectionID)
    (onMessageReceived : onMgsReceivedFunc) (err : Option GoError) (msg : String)
    (sched : List Step) :
    ∀ s : LoopResult, s.phase = Phase.exiting err → s.connectionsMu = some (msg, connId) →
      (runSteps connId onMessageReceived sched s).phase = Phase.exiting err ∧
      (runSteps connId onMessageReceived sched s).connectionsMu = some (msg, connId) ∧
      (runSteps connId onMessageReceived sched s).result = none := by
  induction sched with
  | nil =>
    intro s hp hmu
    exact ⟨hp, hmu, by simp [runSteps, LoopResult.result, hp]⟩
  | cons a t ih =>
    intro s hp hmu
    have hstep : (sessionStep connId onMessageReceived s a).phase = Phase.exiting err ∧
        (sessionStep connId onMessageReceived s a).connectionsMu = some (msg, connId) := by
      cases a with
      | select ev => simp [sessionStep, hp, hmu]
      | push m id => simp [sessionStep, hmu, hp]
      | receive id =>
        by_cases hid : id = connId
        · simp [sessionStep, hid, hp, hmu]
        · have hne : ¬ connId = id := fun e => hid e.symm
          cases hr : receiveFromBackend s.wsconn s.connectionsMu id with
          | none =>
            simp only [sessionStep, hid, if_false, hr]
            exact ⟨hp, hmu⟩
          | some p =>
            obtain ⟨m, ws1, mu1⟩ := p
            obtain ⟨conn, ch, hg, hrecv, hws, hmu1⟩ :=
              receiveFromBackend_eq_some _ _ _ _ _ _ hr
            have hpark : parkedOn s.connectionsMu id = none := by
              simp [parkedOn, hmu, hne]
            simp only [hpark, Option.isSome_none, Bool.false_eq_true, if_false] at hmu1
            simp only [sessionStep, hid, if_false, hr]
            exact ⟨hp, hmu1.trans hmu⟩
      | deferred => simp [sessionStep, hp, hmu]
    simp only [runSteps]
    exact ih _ hstep.1 hstep.2

/-! ## The relay loop drains the outbound queue from its head -/

theorem runSteps_drain (connId : connectionID) (onMessageReceived : onMgsReceivedFunc) :
    ∀ (buf : List String) (s : LoopResult) (conn : connection),
      s.phase = Phase.running → s.connectionsMu = none →
      mapGet s.wsconn.wsMap connId = some conn → conn.fromBackend.buf = buf →
      (runSteps connId onMessageReceived
        (List.replicate buf.length (Step.select (SelectEvent.fromBackend none))) s).trace
        = s.trace ++ buf.map (fun m => Event.write connId m none) := by
  intro buf
  induction buf with
  | nil =>
    intro s conn _ _ _ _
    simp [runSteps]
  | cons m rest ih =>
    intro s conn hrun hmu hget hbuf
    have hrecv : receiveFromBackend s.wsconn s.connectionsMu connId
        = some (m,
            { s.wsconn with
              wsMap := mapSet s.wsconn.wsMap connId
                { conn with fromBackend := { conn.fromBackend with buf := rest } } },
            none) := by
      simp [receiveFromBackend, hget, hmu, parkedOn, Chan.recvWith, Chan.recv, hbuf]
    have hstep : sessionStep connId onMessageReceived s
        (Step.select (SelectEvent.fromBackend none))
        = { phase := Phase.running
            wsconn :=
              { s.wsconn with
                wsMap := mapSet s.wsconn.wsMap connId
                  { conn with fromBackend := { conn.fromBackend with buf := rest } } }
            connectionsMu := none
            trace := s.trace ++ [Event.write connId m none] } := by
      simp [sessionStep, hrun, selectCase, hrecv, writeTimeout]
    have hnext := ih
      (sessionStep connId onMessageReceived s (Step.select (SelectEvent.fromBackend none)))
      { conn with fromBackend := { conn.fromBackend with buf := rest } }
      (by rw [hstep]) (by rw [hstep]) (by rw [hstep]; exact mapGet_mapSet_same _ _ _) rfl
    simp only [List.length_cons, List.replicate_succ, runSteps, hnext]
    rw [hstep]
    simp

/-- C6. For every registry, every session registered under `connId` whose
outbound queue (capacity 16) holds fewer than 16 messages, and every message,
`push` returns nil; afterwards that session's queue is its previous contents
followed by the message, the registered identifiers are the same, and every
other identifier maps to what it mapped to before.  The relay loop takes the
queue from its head: receiving as many messages as are then buffered writes
the previous contents and then the message, in that order. -/
theorem push_enqueues_in_order (wsconn : wsConnections) (msg : String)
    (connId : connectionID) (conn : connection)
    (onMessageReceived : onMgsReceivedFunc)
    (hreg : mapGet wsconn.wsMap connId = some conn)
    (hcap : conn.fromBackend.cap = 16)
    (hlen : conn.fromBackend.buf.length < 16) :
    ∃ wsconn1 : wsConnections,
      push wsconn msg connId = PushOutcome.returned none wsconn1 ∧
      mapGet wsconn1.wsMap connId
        = some { conn with
                 fromBackend := { conn.fromBackend with
                                  buf := conn.fromBackend.buf ++ [msg] } } ∧
      pendingOutbound wsconn1 connId = pendingOutbound wsconn connId ++ [msg] ∧
      mapKeys wsconn1.wsMap = mapKeys wsconn.wsMap ∧
      (∀ other, other ≠ connId →
        mapGet wsconn1.wsMap other = mapGet wsconn.wsMap other) ∧
      (relayLoop connId onMessageReceived
        (List.replicate (conn.fromBackend.buf.length + 1)
          (Step.select (SelectEvent.fromBackend none))) wsconn1).trace
        = (conn.fromBackend.buf ++ [msg]).map (fun m => Event.write connId m none) := by
  have hsend : conn.fromBackend.send msg
      = some { conn.fromBackend with buf := conn.fromBackend.buf ++ [msg] } := by
    simp [Chan.send, hcap, hlen]
  refine ⟨{ wsconn with
            wsMap := mapSet wsconn.wsMap connId
              { conn with
                fromBackend := { conn.fromBackend with
                                 buf := conn.fromBackend.buf ++ [msg] } } }, ?_, ?_, ?_, ?_, ?_, ?_⟩
  · rw [push_eq, hreg]
    simp only [hsend]
  · exact mapGet_mapSet_same _ _ _
  · simp [pendingOutbound, mapGet_mapSet_same, hreg]
  · exact mapKeys_mapSet_of_get _ _ _ _ hreg
  · intro other hne
    exact mapGet_mapSet_ne _ _ _ _ hne
  · have h := runSteps_drain connId onMessageReceived (conn.fromBackend.buf ++ [msg])
      { phase := Phase.running
        wsconn :=
          { wsconn with
            wsMap := mapSet wsconn.wsMap connId
              { conn with
                fromBackend := { conn.fromBackend with
                                 buf := conn.fromBackend.buf ++ [msg] } } }
        connectionsMu := none
        trace := [] }
      { conn with
        fromBackend := { conn.fromBackend with buf := conn.fromBackend.buf ++ [msg] } }
      rfl rfl (mapGet_mapSet_same _ _ _) rfl
    simpa [relayLoop] using h

theorem push_enqueues_in_order_witness :
    ∃ wsconn1 : wsConnections,
      push oneSession "hello" "a" = PushOutcome.returned none wsconn1 ∧
      mapGet wsconn1.wsMap "a"
        = some { id := "a", fromBackend := { cap := 16, buf := ["hello"] },
                 transportClosed := false } ∧
      pendingOutbound wsconn1 "a" = pendingOutbound oneSession "a" ++ ["hello"] ∧
      mapKeys wsconn1.wsMap = mapKeys oneSession.wsMap ∧
      (∀ other, other ≠ "a" → mapGet wsconn1.wsMap other = mapGet oneSession.wsMap other) ∧
      (relayLoop "a" (fun _ _ => none)
        (List.replicate (0 + 1) (Step.select (SelectEvent.fromBackend none))) wsconn1).trace
        = ([] ++ ["hello"]).map (fun m => Event.write "a" m none) :=
  push_enqueues_in_order oneSession "hello" "a"
    { id := "a", fromBackend := { cap := 16, buf := [] }, transportClosed := false }
    (fun _ _ => none) (by decide) rfl (by decide)

/-- A push to a session whose outbound queue is full parks at the channel
send: nothing is enqueued and `closeSlow` is not invoked. -/
theorem push_blocks_of_full (wsconn : wsConnections) (msg : String)
    (connId : connectionID) (conn : connection)
    (hreg : mapGet wsconn.wsMap connId = some conn)
    (hfull : conn.fromBackend.cap ≤ conn.fromBackend.buf.length) :
    push wsconn msg connId = PushOutcome.blocked wsconn := by
  have hsend : conn.fromBackend.send msg = none := by
    simp [Chan.send, Nat.not_lt.mpr hfull]
  rw [push_eq, hreg]
  simp only [hsend]

/-- C2 (evaluation of the code). With 16 messages buffered for session `a`
(capacity 16), `push` of a 17th neither returns nor closes the session's
transport: it stays at the channel send, and the registry, the
`transportClosed` flag of `a` included, is as before. -/
theorem push_full_queue_parks :
    push fullRegistry "m17" "a" = PushOutcome.blocked fullRegistry ∧
      (pendingOutbound fullRegistry "a").length = 16 ∧
      (mapGet fullRegistry.wsMap "a").map connection.transportClosed = some false ∧
      ∀ err wsconn1, push fullRegistry "m17" "a" ≠ PushOutcome.returned err wsconn1 := by
  have h : push fullRegistry "m17" "a" = PushOutcome.blocked fullRegistry := by decide
  refine ⟨h, by decide, by decide, ?_⟩
  intro err wsconn1 h2
  rw [h] at h2
  exact PushOutcome.noConfusion h2

/-! ## Registration and return of `processMessages` -/

/-- The ending events, spelled out: a received message whose write fails
within the 5 seconds, a received message whose write takes longer than the 5
seconds, a terminal read error, a done context. -/
theorem endsLoop_iff (s : LoopResult) (connId : connectionID) (ev : SelectEvent)
    (err : Option GoError) :
    endsLoop s connId ev err ↔
      ((∃ werr seconds expired, ev = SelectEvent.fromBackend (some werr) seconds expired ∧
          seconds ≤ 5 ∧
          (receiveFromBackend s.wsconn s.connectionsMu connId).isSome = true ∧
          err = some werr) ∨
        (∃ writeErr seconds expired, ev = SelectEvent.fromBackend writeErr seconds expired ∧
          5 < seconds ∧
          (receiveFromBackend s.wsconn s.connectionsMu connId).isSome = true ∧
          err = some expired) ∨
        (∃ rerr, ev = SelectEvent.readError rerr ∧ err = none) ∨
        (∃ cerr, ev = SelectEvent.ctxDone cerr ∧ err = some cerr)) := by
  cases ev with
  | fromBackend writeErr seconds expired =>
    constructor
    · intro h
      unfold endsLoop at h
      obtain ⟨h1, h2, h3⟩ := h
      by_cases hsec : seconds ≤ 5
      · have hw : writeTimeout 5 writeErr seconds expired = writeErr := by
          simp [writeTimeout, hsec]
        rw [hw] at h2 h3
        cases writeErr with
        | none => exact absurd rfl h2
        | some werr => exact Or.inl ⟨werr, seconds, expired, rfl, hsec, h1, h3⟩
      · have hw : writeTimeout 5 writeErr seconds expired = some expired := by
          simp [writeTimeout, hsec]
        rw [hw] at h3
        exact Or.inr (Or.inl ⟨writeErr, seconds, expired, rfl, Nat.lt_of_not_le hsec, h1, h3⟩)
    · rintro (⟨werr, sec, ex, hev, hle, h1, h2⟩ | ⟨w, sec, ex, hev, hlt, h1, h2⟩ |
        ⟨r, hev, _⟩ | ⟨c, hev, _⟩)
      · injection hev with e1 e2 e3
        subst e1 e2 e3
        have hw : writeTimeout 5 (some werr) seconds expired = some werr := by
          simp [writeTimeout, hle]
        show (receiveFromBackend s.wsconn s.connectionsMu connId).isSome = true ∧
          writeTimeout 5 _ seconds expired ≠ none ∧ err = writeTimeout 5 _ seconds expired
        rw [hw]
        exact ⟨h1, by simp, h2⟩
      · injection hev with e1 e2 e3
        subst e1 e2 e3
        have hw : writeTimeout 5 writeErr seconds expired = some expired := by
          simp [writeTimeout, Nat.not_le.mpr hlt]
        show (receiveFromBackend s.wsconn s.connectionsMu connId).isSome = true ∧
          writeTimeout 5 _ seconds expired ≠ none ∧ err = writeTimeout 5 _ seconds expired
        rw [hw]
        exact ⟨h1, by simp, h2⟩
      · exact SelectEvent.noConfusion hev
      · exact SelectEvent.noConfusion hev
  | fromClient msg => simp [endsLoop]
  | readError e => simp [endsLoop]
  | ctxDone e => simp [endsLoop]

/-- A run the registry does not recover from: along `stuckSchedule` a `push`
is parked at the full queue of `a`, holding `connectionsMu`, when the loop
returns the context's error.  Whatever follows, the deferred
`deleteConnection` never obtains the mutex: the call does not return and `a`
stays registered. -/
theorem processMessages_stuck_example (rest : List Step) :
    (processMessages newWsConnections "a" (fun _ _ => none)
        (stuckSchedule ++ rest)).result = none ∧
    (processMessages newWsConnections "a" (fun _ _ => none)
        (stuckSchedule ++ rest)).loopReturn
      = some (some (GoError.other "context canceled")) ∧
    "a" ∈ mapKeys (processMessages newWsConnections "a" (fun _ _ => none)
        (stuckSchedule ++ rest)).wsconn.wsMap := by
  have hp : (processMessages newWsConnections "a" (fun _ _ => none) stuckSchedule).phase
      = Phase.exiting (some (GoError.other "context canceled")) := by decide
  have hmu : (processMessages newWsConnections "a" (fun _ _ => none)
      stuckSchedule).connectionsMu = some ("m", "a") := by decide
  rw [processMessages_append]
  obtain ⟨h1, h2, h3⟩ := runSteps_stuck_behind_parked_push "a" (fun _ _ => none) _ "m" rest
    _ hp hmu
  have hreg := runSteps_registered "a" (fun _ _ => none) rest _
    (processMessages_registered newWsConnections "a" (fun _ _ => none) stuckSchedule)
  unfold registeredUntilReturn at hreg
  simp only [h1] at hreg
  refine ⟨h3, ?_, hreg⟩
  unfold LoopResult.loopReturn
  simp only [h1]

/-- C8. `processMessages` starts its relay loop with the session registered
under its identifier.  Along every schedule, at every point at which the call
has not returned (the loop running, or returned and waiting for
`connectionsMu` in the deferred `deleteConnection`) the session is registered,
and the rest of the run proceeds from that state; the call cannot return
without the deferred `deleteConnection`.  For each of the three ways the loop
ends (write error, terminal read error, context done), once the deferred
`deleteConnection` runs with `connectionsMu` free the call returns that way's
value.  After the call has returned, with whatever value, the identifier is
no longer a key of the registry, and a subsequent `push` to it returns
`errConnectionNotFound`. -/
theorem processMessages_registered_until_return (wsconn : wsConnections)
    (connectionId : connectionID) (onMessageReceived : onMgsReceivedFunc)
    (sched : List Step) :
    ((processMessages wsconn connectionId onMessageReceived []).phase = Phase.running ∧
      connectionId ∈
        mapKeys (processMessages wsconn connectionId onMessageReceived []).wsconn.wsMap) ∧
    (∀ pre post, sched = pre ++ post →
      (processMessages wsconn connectionId onMessageReceived pre).result = none →
      connectionId ∈
          mapKeys (processMessages wsconn connectionId onMessageReceived pre).wsconn.wsMap ∧
        processMessages wsconn connectionId onMessageReceived sched
          = runSteps connectionId onMessageReceived post
              (processMessages wsconn connectionId onMessageReceived pre)) ∧
    (Step.deferred ∉ sched →
      (processMessages wsconn connectionId onMessageReceived sched).result = none) ∧
    (∀ ev err, (processMessages wsconn connectionId onMessageReceived sched).phase
        = Phase.running →
      endsLoop (processMessages wsconn connectionId onMessageReceived sched)
        connectionId ev err →
      (processMessages wsconn connectionId onMessageReceived
          (sched ++ [Step.select ev])).connectionsMu = none →
      (processMessages wsconn connectionId onMessageReceived
          (sched ++ [Step.select ev, Step.deferred])).result = some err) ∧
    (∀ err, (processMessages wsconn connectionId onMessageReceived sched).result = some err →
      connectionId ∉
          mapKeys (processMessages wsconn connectionId onMessageReceived sched).wsconn.wsMap ∧
        ∀ msg,
          push (processMessages wsconn connectionId onMessageReceived sched).wsconn msg
              connectionId
            = PushOutcome.returned (some errConnectionNotFound)
                (processMessages wsconn connectionId onMessageReceived sched).wsconn) := by
  have hinit : (processMessages wsconn connectionId onMessageReceived []).result = none := by
    simp [processMessages, relayLoop, runSteps, LoopResult.result]
  refine ⟨⟨rfl, ?_⟩, ?_, ?_, ?_, ?_⟩
  · simp only [processMessages, relayLoop, runSteps, addConnection, newConnection]
    exact mem_mapKeys_mapSet _ _ _
  · intro pre post hsplit hres
    constructor
    · have hreg := processMessages_registered wsconn connectionId onMessageReceived pre
      unfold registeredUntilReturn at hreg
      cases hp : (processMessages wsconn connectionId onMessageReceived pre).phase with
      | running => simpa [hp] using hreg
      | exiting e => simpa [hp] using hreg
      | returned e => simp [LoopResult.result, hp] at hres
    · rw [hsplit, processMessages_append]
  · intro hno
    cases hres : (processMessages wsconn connectionId onMessageReceived sched).result with
    | none => rfl
    | some err =>
      have h := hres
      unfold processMessages relayLoop at h
      obtain ⟨pre, rest, hsplit, _, _⟩ :=
        (runSteps_result_iff connectionId onMessageReceived err sched _
          (by simp [LoopResult.result])).mp h
      exact absurd (by rw [hsplit]; simp) hno
  · intro ev err hrun hend hmu
    have hexit := sessionStep_ending connectionId onMessageReceived _ ev err hrun hend
    have h1 : processMessages wsconn connectionId onMessageReceived
        (sched ++ [Step.select ev])
        = sessionStep connectionId onMessageReceived
            (processMessages wsconn connectionId onMessageReceived sched)
            (Step.select ev) := by
      rw [processMessages_append]
      rfl
    have h2 : processMessages wsconn connectionId onMessageReceived
        (sched ++ [Step.select ev, Step.deferred])
        = sessionStep connectionId onMessageReceived
            (processMessages wsconn connectionId onMessageReceived
              (sched ++ [Step.select ev]))
            Step.deferred := by
      have : sched ++ [Step.select ev, Step.deferred]
          = (sched ++ [Step.select ev]) ++ [Step.deferred] := by simp
      rw [this, processMessages_append]
      rfl
    rw [h1] at hmu
    rw [h2, h1, sessionStep_deferred connectionId onMessageReceived _ err hexit hmu]
    simp [LoopResult.result]
  · intro err hret
    have hp := (result_eq_some_iff _ _).mp hret
    have hreg := processMessages_registered wsconn connectionId onMessageReceived sched
    have hnot : connectionId ∉
        mapKeys (processMessages wsconn connectionId onMessageReceived sched).wsconn.wsMap := by
      simpa [registeredUntilReturn, hp] using hreg
    refine ⟨hnot, ?_⟩
    intro msg
    rw [push_eq, (mapGet_eq_none_iff _ connectionId).mpr hnot]

theorem processMessages_registered_until_return_witness :
    ("a" ∈ mapKeys (processMessages newWsConnections "a" (fun _ _ => none)
        [Step.push "m1" "a", Step.select (SelectEvent.fromBackend none),
         Step.select (SelectEvent.ctxDone (GoError.other "context canceled"))]).wsconn.wsMap ∧
      processMessages newWsConnections "a" (fun _ _ => none)
          ([Step.push "m1" "a", Step.select (SelectEvent.fromBackend none),
            Step.select (SelectEvent.ctxDone (GoError.other "context canceled"))] ++
            [Step.deferred])
        = runSteps "a" (fun _ _ => none) [Step.deferred]
            (processMessages newWsConnections "a" (fun _ _ => none)
              [Step.push "m1" "a", Step.select (SelectEvent.fromBackend none),
               Step.select (SelectEvent.ctxDone (GoError.other "context canceled"))])) ∧
    ("a" ∉ mapKeys (processMessages newWsConnections "a" (fun _ _ => none)
        ([Step.push "m1" "a", Step.select (SelectEvent.fromBackend none),
          Step.select (SelectEvent.ctxDone (GoError.other "context canceled"))] ++
          [Step.deferred])).wsconn.wsMap ∧
      ∀ msg,
        push (processMessages newWsConnections "a" (fun _ _ => none)
            ([Step.push "m1" "a", Step.select (SelectEvent.fromBackend none),
              Step.select (SelectEvent.ctxDone (GoError.other "context canceled"))] ++
              [Step.deferred])).wsconn msg "a"
          = PushOutcome.returned (some errConnectionNotFound)
              (processMessages newWsConnections "a" (fun _ _ => none)
                ([Step.push "m1" "a", Step.select (SelectEvent.fromBackend none),
                  Step.select (SelectEvent.ctxDone (GoError.other "context canceled"))] ++
                  [Step.deferred])).wsconn) :=
  ⟨(processMessages_registered_until_return newWsConnections "a" (fun _ _ => none)
      ([Step.push "m1" "a", Step.select (SelectEvent.fromBackend none),
        Step.select (SelectEvent.ctxDone (GoError.other "context canceled"))] ++
        [Step.deferred])).2.1
      [Step.push "m1" "a", Step.select (SelectEvent.fromBackend none),
       Step.select (SelectEvent.ctxDone (GoError.other "context canceled"))]
      [Step.deferred] rfl (by decide),
    (processMessages_registered_until_return newWsConnections "a" (fun _ _ => none)
      ([Step.push "m1" "a", Step.select (SelectEvent.fromBackend none),
        Step.select (SelectEvent.ctxDone (GoError.other "context canceled"))] ++
        [Step.deferred])).2.2.2.2
      (some (GoError.other "context canceled")) (by decide)⟩

/-- C10. The relay loop of `processMessages` has returned `err` exactly when
its schedule reaches, with the loop running, one of these `select` events: an
outbound message is received and writing it fails within the 5 seconds with
`werr`, and `err` is that write error; an outbound message is received and
writing it takes longer than the 5 seconds, and `err` is the error `Write`
reports for the expired deadline; the reader signals a terminal read error,
and `err` is nil; the context is done, and `err` is `ctx.Err()`.  In no other
case does the loop return.  The call itself returns `err` exactly when, after
the loop has returned `err`, the deferred `deleteConnection` runs with
`connectionsMu` free; so it returns nothing but what the loop returned. -/
theorem processMessages_returns_exactly (wsconn : wsConnections)
    (connectionId : connectionID) (onMessageReceived : onMgsReceivedFunc)
    (sched : List Step) (err : Option GoError) :
    ((processMessages wsconn connectionId onMessageReceived sched).loopReturn = some err ↔
      ∃ pre ev rest, sched = pre ++ Step.select ev :: rest ∧
        (processMessages wsconn connectionId onMessageReceived pre).phase = Phase.running ∧
        ((∃ werr seconds expired,
            ev = SelectEvent.fromBackend (some werr) seconds expired ∧ seconds ≤ 5 ∧
            (receiveFromBackend
              (processMessages wsconn connectionId onMessageReceived pre).wsconn
              (processMessages wsconn connectionId onMessageReceived pre).connectionsMu
              connectionId).isSome = true ∧
            err = some werr) ∨
          (∃ writeErr seconds expired,
            ev = SelectEvent.fromBackend writeErr seconds expired ∧ 5 < seconds ∧
            (receiveFromBackend
              (processMessages wsconn connectionId onMessageReceived pre).wsconn
              (processMessages wsconn connectionId onMessageReceived pre).connectionsMu
              connectionId).isSome = true ∧
            err = some expired) ∨
          (∃ rerr, ev = SelectEvent.readError rerr ∧ err = none) ∨
          (∃ cerr, ev = SelectEvent.ctxDone cerr ∧ err = some cerr))) ∧
    ((processMessages wsconn connectionId onMessageReceived sched).result = some err ↔
      ∃ pre rest, sched = pre ++ Step.deferred :: rest ∧
        (processMessages wsconn connectionId onMessageReceived pre).phase
          = Phase.exiting err ∧
        (processMessages wsconn connectionId onMessageReceived pre).connectionsMu = none) ∧
    ((processMessages wsconn connectionId onMessageReceived sched).result = some err →
      (processMessages wsconn connectionId onMessageReceived sched).loopReturn = some err) := by
  refine ⟨?_, ?_, ?_⟩
  · have h := runSteps_loopReturn_iff connectionId onMessageReceived err sched
      { phase := Phase.running
        wsconn := addConnection wsconn (newConnection wsconn connectionId)
        connectionsMu := none
        trace := [] } rfl
    simp only [endsLoop_iff] at h
    exact h
  · exact runSteps_result_iff connectionId onMessageReceived err sched
      { phase := Phase.running
        wsconn := addConnection wsconn (newConnection wsconn connectionId)
        connectionsMu := none
        trace := [] } (by simp [LoopResult.result])
  · intro h
    have hp := (result_eq_some_iff _ _).mp h
    simp [LoopResult.loopReturn, hp]

theorem processMessages_returns_exactly_witness :
    (processMessages newWsConnections "a" (fun _ _ => none)
      ([Step.push "m1" "a"] ++ Step.select (SelectEvent.fromBackend none 7) ::
        [Step.deferred])).loopReturn
      = some (some (GoError.other "context deadline exceeded")) :=
  (processMessages_returns_exactly newWsConnections "a" (fun _ _ => none)
    ([Step.push "m1" "a"] ++ Step.select (SelectEvent.fromBackend none 7) ::
      [Step.deferred])
    (some (GoError.other "context deadline exceeded"))).1.mpr
    ⟨[Step.push "m1" "a"], SelectEvent.fromBackend none 7, [Step.deferred], rfl, by decide,
      Or.inr (Or.inl ⟨none, 7, GoError.other "context deadline exceeded", rfl, by decide,
        by decide, rfl⟩)⟩

/-! ## The push handler -/

/-- Whenever `ws.push` returns nil the handler falls through to its last
statement, `g.AbortWithStatus(http.StatusInternalServerError)`. -/
theorem pushHandler_enqueued_status (unmarshal : String → Except GoError JsonValue)
    (ws ws1 : wsConnections) (req : PushRequest) (requestBody bodyAsString : String)
    (hparam : req.param ≠ "") (hbody : req.body = Except.ok requestBody)
    (hjson : unmarshal requestBody = Except.ok (JsonValue.string bodyAsString))
    (hpush : push ws bodyAsString req.param = PushOutcome.returned none ws1) :
    pushHandler unmarshal ws req
      = { status := some 500, wsconn := ws1, pushCalls := [(bodyAsString, req.param)] } := by
  simp [pushHandler, hparam, hbody, hjson, hpush, errConnectionNotFound]

/-- No request makes the handler answer 200. -/
theorem pushHandler_never_200 (unmarshal : String → Except GoError JsonValue)
    (ws : wsConnections) (req : PushRequest) :
    (pushHandler unmarshal ws req).status ≠ some 200 := by
  unfold pushHandler
  by_cases hparam : req.param = ""
  · simp [hparam]
  · simp only [hparam, if_false]
    cases hb : req.body with
    | error e => simp
    | ok requestBody =>
      cases hu : unmarshal requestBody with
      | error e => simp [hu]
      | ok v =>
        cases v with
        | string bodyAsString =>
          cases hp : push ws bodyAsString req.param with
          | blocked ws1 => simp [hu, hp]
          | returned errPush ws1 =>
            by_cases he : errPush = some errConnectionNotFound <;> simp [hu, hp, he]
        | null => simp [hu]
        | bool b => simp [hu]
        | number t => simp [hu]
        | array xs => simp [hu]
        | object ms => simp [hu]

/-- C1 (evaluation of the code). A push of the JSON string `"hello"` to the
live session `a` is enqueued (`ws.push` returns nil and the queue of `a`
holds the message), and the handler answers 500, not 200. -/
theorem pushHandler_enqueued_answers_500 :
    (∃ ws1, push oneSession "hello" "a" = PushOutcome.returned none ws1 ∧
      pendingOutbound ws1 "a" = ["hello"]) ∧
    (pushHandler sampleUnmarshal oneSession
      { param := "a", body := Except.ok "\"hello\"" }).status = some 500 ∧
    pendingOutbound (pushHandler sampleUnmarshal oneSession
      { param := "a", body := Except.ok "\"hello\"" }).wsconn "a" = ["hello"] := by
  refine ⟨⟨_, rfl, by decide⟩, by decide, by decide⟩

/-- C7. For every push request with a non-empty connection identifier whose
body does not decode as JSON, or decodes to a value that is not a string, the
handler answers 400 and does not call `ws.push`: the registry, with every
session's outbound queue and transport, is as before. -/
theorem pushHandler_rejects_non_string_body
    (unmarshal : String → Except GoError JsonValue) (ws : wsConnections)
    (req : PushRequest) (requestBody : String)
    (hparam : req.param ≠ "") (hbody : req.body = Except.ok requestBody)
    (hbad : (∃ e, unmarshal requestBody = Except.error e) ∨
      (∃ v, unmarshal requestBody = Except.ok v ∧ ∀ s, v ≠ JsonValue.string s)) :
    pushHandler unmarshal ws req = { status := some 400, wsconn := ws, pushCalls := [] } := by
  unfold pushHandler
  simp only [hparam, if_false, hbody]
  rcases hbad with ⟨e, he⟩ | ⟨v, hv, hns⟩
  · simp [he]
  · cases v with
    | string s => exact absurd rfl (hns s)
    | null => simp [hv]
    | bool b => simp [hv]
    | number t => simp [hv]
    | array xs => simp [hv]
    | object ms => simp [hv]

theorem pushHandler_rejects_non_string_body_witness :
    pushHandler sampleUnmarshal fullRegistry
        { param := "abc", body := Except.ok "\x7bnot json" }
      = { status := some 400, wsconn := fullRegistry, pushCalls := [] } :=
  pushHandler_rejects_non_string_body sampleUnmarshal fullRegistry
    { param := "abc", body := Except.ok "\x7bnot json" } "\x7bnot json"
    (by decide) rfl (Or.inl ⟨GoError.other "invalid character", rfl⟩)

/-! ## The connect handler -/

theorem appURLs_connecting_ne_disconnected (u : appURLs) : u.connecting ≠ u.disconnected := by
  intro h
  have h2 := congrArg String.data h
  simp only [appURLs.connecting, appURLs.disconnected, String.data_append,
    List.append_cancel_left_eq] at h2
  exact absurd h2 (by decide)

/-- The notifier reports acceptance exactly when the request could be built
and the backend answered 200; it then issues the one call and nothing else. -/
theorem notify_accepted (env : Backend) (url : String) (connId : connectionID)
    (h : Header) (hreq : env.newRequestOk url = true)
    (hdo : env.clientDo url (Header.Add h ConnectionIDHeaderKey connId)
      = DoResult.response 200) :
    notifyAppOfWsConnectionChange env url connId h
      = (true, Header.Add h ConnectionIDHeaderKey connId,
          [Event.clientDo url (Header.Add h ConnectionIDHeaderKey connId)]) := by
  simp [notifyAppOfWsConnectionChange, hreq, hdo]

/-- In every other case the notifier reports rejection; it has aborted the
response with one status, after at most the one call. -/
theorem notify_rejected (env : Backend) (url : String) (connId : connectionID)
    (h : Header)
    (hno : ¬ (env.newRequestOk url = true ∧
      env.clientDo url (Header.Add h ConnectionIDHeaderKey connId) = DoResult.response 200)) :
    (notifyAppOfWsConnectionChange env url connId h).1 = false ∧
      ((notifyAppOfWsConnectionChange env url connId h).2.2 = [Event.abortWithStatus 500] ∨
        ∃ code, (notifyAppOfWsConnectionChange env url connId h).2.2
          = [Event.clientDo url (Header.Add h ConnectionIDHeaderKey connId),
             Event.abortWithStatus code]) := by
  unfold notifyAppOfWsConnectionChange
  cases hreq : env.newRequestOk url with
  | false => simp
  | true =>
    cases hdo : env.clientDo url (Header.Add h ConnectionIDHeaderKey connId) with
    | requestErr => simp [hdo]
    | response statusCode =>
      by_cases h401 : statusCode = 401
      · simp [hdo, h401]
      · by_cases h200 : statusCode = 200
        · exact absurd ⟨hreq, by rw [hdo, h200]⟩ hno
        · simp [hdo, h401, h200]

theorem connectHandler_rejected (env : Backend) (appUrls : appURLs) (ws : wsConnections)
    (onMessageReceived : onMgsReceivedFunc) (inp : ConnectInput)
    (h : (notifyAppOfWsConnectionChange env appUrls.connecting inp.connId inp.header).1
      = false) :
    connectHandler env appUrls ws onMessageReceived inp
      = { wsconn := ws
          header :=
            (notifyAppOfWsConnectionChange env appUrls.connecting inp.connId inp.header).2.1
          trace :=
            (notifyAppOfWsConnectionChange env appUrls.connecting inp.connId inp.header).2.2
          finished := true } := by
  unfold connectHandler
  simp [h]

/-- C3. For every outcome of the backend's answer to the `connecting` call,
the handler goes on to `websocket.Accept` if and only if the request was sent
and answered 200.  An answer 401 is passed on as 401; any other status, a
failed call, or a request that could not be built, gives 500.  In each of
these rejections the handler stops: the events are the call (if made) and the
one abort, so that no upgrade is attempted, `processMessages` is not started,
the registry is the one found, and no call to the `disconnected` URL is
made. -/
theorem connectHandler_connecting_gate (env : Backend) (appUrls : appURLs)
    (ws : wsConnections) (onMessageReceived : onMgsReceivedFunc) (inp : ConnectInput) :
    ((∃ ok, Event.accept ok ∈ (connectHandler env appUrls ws onMessageReceived inp).trace) ↔
      (env.newRequestOk appUrls.connecting = true ∧
        env.clientDo appUrls.connecting
            (Header.Add inp.header ConnectionIDHeaderKey inp.connId)
          = DoResult.response 200)) ∧
    (env.newRequestOk appUrls.connecting = true →
      env.clientDo appUrls.connecting
          (Header.Add inp.header ConnectionIDHeaderKey inp.connId)
        = DoResult.response 401 →
      (connectHandler env appUrls ws onMessageReceived inp).trace
        = [Event.clientDo appUrls.connecting
              (Header.Add inp.header ConnectionIDHeaderKey inp.connId),
            Event.abortWithStatus 401]) ∧
    (∀ code, code ≠ 200 → code ≠ 401 →
      env.newRequestOk appUrls.connecting = true →
      env.clientDo appUrls.connecting
          (Header.Add inp.header ConnectionIDHeaderKey inp.connId)
        = DoResult.response code →
      (connectHandler env appUrls ws onMessageReceived inp).trace
        = [Event.clientDo appUrls.connecting
              (Header.Add inp.header ConnectionIDHeaderKey inp.connId),
            Event.abortWithStatus 500]) ∧
    (env.newRequestOk appUrls.connecting = true →
      env.clientDo appUrls.connecting
          (Header.Add inp.header ConnectionIDHeaderKey inp.connId)
        = DoResult.requestErr →
      (connectHandler env appUrls ws onMessageReceived inp).trace
        = [Event.clientDo appUrls.connecting
              (Header.Add inp.header ConnectionIDHeaderKey inp.connId),
            Event.abortWithStatus 500]) ∧
    (env.newRequestOk appUrls.connecting = false →
      (connectHandler env appUrls ws onMessageReceived inp).trace
        = [Event.abortWithStatus 500]) ∧
    (¬ (env.newRequestOk appUrls.connecting = true ∧
        env.clientDo appUrls.connecting
            (Header.Add inp.header ConnectionIDHeaderKey inp.connId)
          = DoResult.response 200) →
      (connectHandler env appUrls ws onMessageReceived inp).wsconn = ws ∧
      (connectHandler env appUrls ws onMessageReceived inp).finished = true ∧
      (∀ ok, Event.accept ok ∉ (connectHandler env appUrls ws onMessageReceived inp).trace) ∧
      (∀ id, Event.processMessagesStart id ∉
        (connectHandler env appUrls ws onMessageReceived inp).trace) ∧
      (∀ h, Event.clientDo appUrls.disconnected h ∉
        (connectHandler env appUrls ws onMessageReceived inp).trace)) := by
  have hne : appUrls.connecting ≠ appUrls.disconnected :=
    appURLs_connecting_ne_disconnected appUrls
  have hrej : ¬ (env.newRequestOk appUrls.connecting = true ∧
        env.clientDo appUrls.connecting
            (Header.Add inp.header ConnectionIDHeaderKey inp.connId)
          = DoResult.response 200) →
      (connectHandler env appUrls ws onMessageReceived inp).wsconn = ws ∧
      (connectHandler env appUrls ws onMessageReceived inp).finished = true ∧
      (∀ ok, Event.accept ok ∉ (connectHandler env appUrls ws onMessageReceived inp).trace) ∧
      (∀ id, Event.processMessagesStart id ∉
        (connectHandler env appUrls ws onMessageReceived inp).trace) ∧
      (∀ h, Event.clientDo appUrls.disconnected h ∉
        (connectHandler env appUrls ws onMessageReceived inp).trace) := by
    intro hno
    obtain ⟨h1, h2⟩ := notify_rejected env appUrls.connecting inp.connId inp.header hno
    rw [connectHandler_rejected env appUrls ws onMessageReceived inp h1]
    refine ⟨rfl, rfl, ?_, ?_, ?_⟩
    · intro ok
      rcases h2 with h2 | ⟨code, h2⟩ <;> simp [h2]
    · intro id
      rcases h2 with h2 | ⟨code, h2⟩ <;> simp [h2]
    · intro h
      rcases h2 with h2 | ⟨code, h2⟩
      · simp [h2]
      · simp only [h2, List.mem_cons, Event.clientDo.injEq, List.mem_singleton,
          reduceCtorEq, or_false, not_and, List.not_mem_nil]
        intro e
        exact absurd e.symm hne
  refine ⟨?_, ?_, ?_, ?_, ?_, hrej⟩
  · constructor
    · rintro ⟨ok, hmem⟩
      by_contra hno
      exact (hrej hno).2.2.1 ok hmem
    · rintro ⟨hreq, hdo⟩
      have hn := notify_accepted env appUrls.connecting inp.connId inp.header hreq hdo
      cases hacc : inp.acceptOk with
      | false => exact ⟨false, by simp [connectHandler, hn, hacc]⟩
      | true =>
        refine ⟨true, ?_⟩
        cases hres : (processMessages ws inp.connId onMessageReceived inp.sched).result
          <;> simp [connectHandler, hn, hacc, hres]
  · intro hreq hdo
    simp [connectHandler, notifyAppOfWsConnectionChange, hreq, hdo]
  · intro code h200 h401 hreq hdo
    simp [connectHandler, notifyAppOfWsConnectionChange, hreq, hdo, h200, h401]
  · intro hreq hdo
    simp [connectHandler, notifyAppOfWsConnectionChange, hreq, hdo]
  · intro hreq
    simp [connectHandler, notifyAppOfWsConnectionChange, hreq]

theorem connectHandler_connecting_gate_witness :
    (connectHandler (mockApp sampleUrls) sampleUrls newWsConnections (fun _ _ => none)
        badCredentialInput).trace
      = [Event.clientDo sampleUrls.connecting
            (Header.Add badCredentialInput.header ConnectionIDHeaderKey
              badCredentialInput.connId),
          Event.abortWithStatus 401] :=
  (connectHandler_connecting_gate (mockApp sampleUrls) sampleUrls newWsConnections
    (fun _ _ => none) badCredentialInput).2.1 rfl (by decide)

theorem isClientDoTo_of_not_isClientDo (url : String) (e : Event)
    (h : e.isClientDo = false) : e.isClientDoTo url = false := by
  cases e <;> simp_all [Event.isClientDo, Event.isClientDoTo]

theorem countP_isClientDoTo_eq_zero (url : String) (l : List Event)
    (h : ∀ e ∈ l, e.isClientDo = false) : l.countP (Event.isClientDoTo url) = 0 := by
  rw [List.countP_eq_zero]
  intro e he
  simp [isClientDoTo_of_not_isClientDo url e (h e he)]

theorem selectCase_trace_no_clientDo (wsconn : wsConnections) (mu : MutexState)
    (connId : connectionID) (onMessageReceived : onMgsReceivedFunc) (ev : SelectEvent) :
    match selectCase wsconn mu connId onMessageReceived ev with
    | IterOutcome.next _ _ tr => ∀ e ∈ tr, e.isClientDo = false
    | IterOutcome.ret _ _ _ tr => ∀ e ∈ tr, e.isClientDo = false := by
  cases ev with
  | fromBackend writeErr seconds expired =>
    cases hr : receiveFromBackend wsconn mu connId with
    | none => simp [selectCase, hr]
    | some p =>
      obtain ⟨m, ws1, mu1⟩ := p
      cases hw : writeTimeout 5 writeErr seconds expired <;>
        simp [selectCase, hr, hw, Event.isClientDo]
  | fromClient msg => simp [selectCase, Event.isClientDo]
  | readError e => simp [selectCase]
  | ctxDone e => simp [selectCase]

/-- A step of a session makes no backend call. -/
theorem sessionStep_trace_no_clientDo (connId : connectionID)
    (onMessageReceived : onMgsReceivedFunc) (s : LoopResult) (st : Step)
    (h : ∀ e ∈ s.trace, e.isClientDo = false) :
    ∀ e ∈ (sessionStep connId onMessageReceived s st).trace, e.isClientDo = false := by
  cases st with
  | select ev =>
    cases hp : s.phase with
    | running =>
      have hk := selectCase_trace_no_clientDo s.wsconn s.connectionsMu connId
        onMessageReceived ev
      cases hs : selectCase s.wsconn s.connectionsMu connId onMessageReceived ev with
      | next ws1 mu1 tr =>
        rw [hs] at hk
        simp only [sessionStep, hp, hs, List.mem_append]
        rintro e (he | he)
        · exact h e he
        · exact hk e he
      | ret err ws1 mu1 tr =>
        rw [hs] at hk
        simp only [sessionStep, hp, hs, List.mem_append]
        rintro e (he | he)
        · exact h e he
        · exact hk e he
    | exiting e => simpa [sessionStep, hp] using h
    | returned e => simpa [sessionStep, hp] using h
  | push msg id =>
    cases hmu : s.connectionsMu with
    | some p => simpa [sessionStep, hmu] using h
    | none =>
      cases hpush : push s.wsconn msg id <;> simpa [sessionStep, hmu, hpush] using h
  | receive id =>
    by_cases hid : id = connId
    · simpa [sessionStep, hid] using h
    · cases hr : receiveFromBackend s.wsconn s.connectionsMu id with
      | none => simpa [sessionStep, hid, hr] using h
      | some p =>
        obtain ⟨m, ws1, mu1⟩ := p
        simpa [sessionStep, hid, hr] using h
  | deferred =>
    cases hp : s.phase with
    | running => simpa [sessionStep, hp] using h
    | returned e => simpa [sessionStep, hp] using h
    | exiting e =>
      cases hmu : s.connectionsMu with
      | some p => simpa [sessionStep, hp, hmu] using h
      | none => simpa [sessionStep, hp, hmu] using h

/-- A call of `processMessages` makes no backend call. -/
theorem processMessages_trace_no_clientDo (wsconn : wsConnections)
    (connectionId : connectionID) (onMessageReceived : onMgsReceivedFunc)
    (sched : List Step) :
    ∀ e ∈ (processMessages wsconn connectionId onMessageReceived sched).trace,
      e.isClientDo = false := by
  have key : ∀ (l : List Step) (s : LoopResult),
      (∀ e ∈ s.trace, e.isClientDo = false) →
      ∀ e ∈ (runSteps connectionId onMessageReceived l s).trace, e.isClientDo = false := by
    intro l
    induction l with
    | nil => intro s h; exact h
    | cons a t ih =>
      intro s h
      exact ih _ (sessionStep_trace_no_clientDo connectionId onMessageReceived s a h)
  unfold processMessages relayLoop
  apply key
  simp

/-- Once the request is built the notifier makes the one call, with the
identifier added to the header, and afterwards at most aborts. -/
theorem notify_trace_of_request (env : Backend) (url : String) (connId : connectionID)
    (h : Header) (hreq : env.newRequestOk url = true) :
    ∃ tail, (notifyAppOfWsConnectionChange env url connId h).2.2
        = Event.clientDo url (Header.Add h ConnectionIDHeaderKey connId) :: tail ∧
      (∀ e ∈ tail, e.isClientDo = false) ∧
      (notifyAppOfWsConnectionChange env url connId h).2.1
        = Header.Add h ConnectionIDHeaderKey connId := by
  unfold notifyAppOfWsConnectionChange
  cases hdo : env.clientDo url (Header.Add h ConnectionIDHeaderKey connId) with
  | requestErr =>
    exact ⟨[Event.abortWithStatus 500], by simp [hreq, hdo], by simp [Event.isClientDo],
      by simp [hreq, hdo]⟩
  | response statusCode =>
    by_cases h401 : statusCode = 401
    · exact ⟨[Event.abortWithStatus 401], by simp [hreq, hdo, h401],
        by simp [Event.isClientDo], by simp [hreq, hdo, h401]⟩
    · by_cases h200 : statusCode = 200
      · exact ⟨[], by simp [hreq, hdo, h200], by simp, by simp [hreq, hdo, h200]⟩
      · exact ⟨[Event.abortWithStatus 500], by simp [hreq, hdo, h401, h200],
          by simp [Event.isClientDo], by simp [hreq, hdo, h401, h200]⟩

/-- The handler on a connection that was accepted, upgraded, and whose
`processMessages` returned. -/
theorem connectHandler_upgraded (env : Backend) (appUrls : appURLs) (ws : wsConnections)
    (onMessageReceived : onMgsReceivedFunc) (inp : ConnectInput) (err : Option GoError)
    (hreq : env.newRequestOk appUrls.connecting = true)
    (hdo : env.clientDo appUrls.connecting
        (Header.Add inp.header ConnectionIDHeaderKey inp.connId) = DoResult.response 200)
    (hup : inp.acceptOk = true)
    (hret : (processMessages ws inp.connId onMessageReceived inp.sched).result = some err) :
    connectHandler env appUrls ws onMessageReceived inp
      = { wsconn := (processMessages ws inp.connId onMessageReceived inp.sched).wsconn
          header := (notifyAppOfWsConnectionChange env appUrls.disconnected inp.connId
            (Header.Add inp.header ConnectionIDHeaderKey inp.connId)).2.1
          trace :=
            [Event.clientDo appUrls.connecting
                (Header.Add inp.header ConnectionIDHeaderKey inp.connId),
              Event.accept true, Event.processMessagesStart inp.connId]
            ++ (processMessages ws inp.connId onMessageReceived inp.sched).trace
            ++ [Event.processMessagesReturn inp.connId err]
            ++ (notifyAppOfWsConnectionChange env appUrls.disconnected inp.connId
                (Header.Add inp.header ConnectionIDHeaderKey inp.connId)).2.2
            ++ [Event.wsConnClose]
          finished := true } := by
  have hn := notify_accepted env appUrls.connecting inp.connId inp.header hreq hdo
  simp [connectHandler, hn, hup, hret]

/-- C4. For every connection whose `connecting` call was answered 200 and
whose upgrade succeeded, and for every value `err` that `processMessages`
returns (the request for the `disconnected` URL of the same base being
buildable like the one for the `connecting` URL): the events of the handler
are the `connecting` call, the upgrade, the start of `processMessages`, the
events of the relay loop (no backend call among them), the return of
`processMessages`, the `disconnected` call, and a rest without backend call.
So each of the two calls is issued exactly once, the first before
`processMessages` starts and the second after it returns. -/
theorem connectHandler_lifecycle_once (env : Backend) (appUrls : appURLs)
    (ws : wsConnections) (onMessageReceived : onMgsReceivedFunc) (inp : ConnectInput)
    (err : Option GoError)
    (hreq : env.newRequestOk appUrls.connecting = true)
    (hdo : env.clientDo appUrls.connecting
        (Header.Add inp.header ConnectionIDHeaderKey inp.connId) = DoResult.response 200)
    (hup : inp.acceptOk = true)
    (hret : (processMessages ws inp.connId onMessageReceived inp.sched).result = some err)
    (hreq2 : env.newRequestOk appUrls.disconnected = true) :
    ∃ post,
      (connectHandler env appUrls ws onMessageReceived inp).trace
        = [Event.clientDo appUrls.connecting
              (Header.Add inp.header ConnectionIDHeaderKey inp.connId),
            Event.accept true, Event.processMessagesStart inp.connId]
          ++ (processMessages ws inp.connId onMessageReceived inp.sched).trace
          ++ [Event.processMessagesReturn inp.connId err,
              Event.clientDo appUrls.disconnected
                (Header.Add (Header.Add inp.header ConnectionIDHeaderKey inp.connId)
                  ConnectionIDHeaderKey inp.connId)]
          ++ post ∧
      (∀ e ∈ (processMessages ws inp.connId onMessageReceived inp.sched).trace,
        e.isClientDo = false) ∧
      (∀ e ∈ post, e.isClientDo = false) ∧
      (connectHandler env appUrls ws onMessageReceived inp).trace.countP
          (Event.isClientDoTo appUrls.connecting) = 1 ∧
      (connectHandler env appUrls ws onMessageReceived inp).trace.countP
          (Event.isClientDoTo appUrls.disconnected) = 1 ∧
      (connectHandler env appUrls ws onMessageReceived inp).finished = true := by
  have hne : appUrls.connecting ≠ appUrls.disconnected :=
    appURLs_connecting_ne_disconnected appUrls
  obtain ⟨tail, htail, hnocall, _⟩ := notify_trace_of_request env appUrls.disconnected
    inp.connId (Header.Add inp.header ConnectionIDHeaderKey inp.connId) hreq2
  have hmid : ∀ e ∈ (processMessages ws inp.connId onMessageReceived inp.sched).trace,
      e.isClientDo = false :=
    processMessages_trace_no_clientDo _ _ _ _
  have hpost : ∀ e ∈ tail ++ [Event.wsConnClose], e.isClientDo = false := by
    intro e he
    rcases List.mem_append.mp he with h1 | h1
    · exact hnocall e h1
    · simp only [List.mem_singleton] at h1
      subst h1
      rfl
  have htrace : (connectHandler env appUrls ws onMessageReceived inp).trace
      = [Event.clientDo appUrls.connecting
            (Header.Add inp.header ConnectionIDHeaderKey inp.connId),
          Event.accept true, Event.processMessagesStart inp.connId]
        ++ (processMessages ws inp.connId onMessageReceived inp.sched).trace
        ++ [Event.processMessagesReturn inp.connId err,
            Event.clientDo appUrls.disconnected
              (Header.Add (Header.Add inp.header ConnectionIDHeaderKey inp.connId)
                ConnectionIDHeaderKey inp.connId)]
        ++ (tail ++ [Event.wsConnClose]) := by
    rw [connectHandler_upgraded env appUrls ws onMessageReceived inp err hreq hdo hup hret]
    simp [htail]
  have hc1 := countP_isClientDoTo_eq_zero appUrls.connecting _ hmid
  have hc2 := countP_isClientDoTo_eq_zero appUrls.connecting _ hpost
  have hd1 := countP_isClientDoTo_eq_zero appUrls.disconnected _ hmid
  have hd2 := countP_isClientDoTo_eq_zero appUrls.disconnected _ hpost
  have hne2 : ¬ appUrls.disconnected = appUrls.connecting := fun e => hne e.symm
  refine ⟨tail ++ [Event.wsConnClose], htrace, hmid, hpost, ?_, ?_, ?_⟩
  · rw [htrace]
    simp only [List.countP_append, hc1, hc2, List.countP_cons, List.countP_nil,
      Event.isClientDoTo, beq_self_eq_true, beq_iff_eq, hne2]
    simp
  · rw [htrace]
    simp only [List.countP_append, hd1, hd2, List.countP_cons, List.countP_nil,
      Event.isClientDoTo, beq_self_eq_true, beq_iff_eq, hne]
    simp
  · rw [connectHandler_upgraded env appUrls ws onMessageReceived inp err hreq hdo hup hret]

theorem connectHandler_lifecycle_once_witness :
    ∃ post,
      (connectHandler (mockApp sampleUrls) sampleUrls newWsConnections (fun _ _ => none)
          happyInput).trace
        = [Event.clientDo sampleUrls.connecting
              (Header.Add happyInput.header ConnectionIDHeaderKey happyInput.connId),
            Event.accept true, Event.processMessagesStart happyInput.connId]
          ++ (processMessages newWsConnections happyInput.connId (fun _ _ => none)
                happyInput.sched).trace
          ++ [Event.processMessagesReturn happyInput.connId none,
              Event.clientDo sampleUrls.disconnected
                (Header.Add
                  (Header.Add happyInput.header ConnectionIDHeaderKey happyInput.connId)
                  ConnectionIDHeaderKey happyInput.connId)]
          ++ post ∧
      (∀ e ∈ (processMessages newWsConnections happyInput.connId (fun _ _ => none)
          happyInput.sched).trace, e.isClientDo = false) ∧
      (∀ e ∈ post, e.isClientDo = false) ∧
      (connectHandler (mockApp sampleUrls) sampleUrls newWsConnections (fun _ _ => none)
          happyInput).trace.countP (Event.isClientDoTo sampleUrls.connecting) = 1 ∧
      (connectHandler (mockApp sampleUrls) sampleUrls newWsConnections (fun _ _ => none)
          happyInput).trace.countP (Event.isClientDoTo sampleUrls.disconnected) = 1 ∧
      (connectHandler (mockApp sampleUrls) sampleUrls newWsConnections (fun _ _ => none)
          happyInput).finished = true :=
  connectHandler_lifecycle_once (mockApp sampleUrls) sampleUrls newWsConnections
    (fun _ _ => none) happyInput none rfl (by decide) rfl (by decide) rfl

/-! ## The connection identifier header -/

theorem headerValues_headerSet_same (h : Header) (key : String) (vs : List String) :
    headerValues (headerSet h key vs) key = vs := by
  induction h with
  | nil => simp [headerSet, headerValues]
  | cons kv rest ih =>
    obtain ⟨k, old⟩ := kv
    by_cases hk : k = key
    · simp [headerSet, headerValues, hk]
    · simp [headerSet, headerValues, hk, ih]

theorem headerValues_headerSet_ne (h : Header) (key other : String) (vs : List String)
    (hne : other ≠ key) :
    headerValues (headerSet h key vs) other = headerValues h other := by
  have h2 : ¬ key = other := fun e => hne e.symm
  induction h with
  | nil => simp [headerSet, headerValues, h2]
  | cons kv rest ih =>
    obtain ⟨k, old⟩ := kv
    by_cases hk : k = key
    · subst hk
      simp [headerSet, headerValues, h2]
    · by_cases hko : k = other
      · subst hko
        simp [headerSet, headerValues, hk]
      · simp [headerSet, headerValues, hk, hko, ih]

/-- Every value the request carried under any key is still carried under
that key after `Add`: the original headers are forwarded. -/
theorem Header.Add_forwards (h : Header) (key value other x : String)
    (hx : x ∈ headerValues h other) :
    x ∈ headerValues (Header.Add h key value) other := by
  unfold Header.Add
  by_cases hk : other = CanonicalMIMEHeaderKey key
  · subst hk
    rw [headerValues_headerSet_same]
    exact List.mem_append_left _ hx
  · rw [headerValues_headerSet_ne _ _ _ _ hk]
    exact hx

/-- When the request carries no value under the canonical key, `Get` after
`Add` yields the value added. -/
theorem Header.Get_Add_of_absent (h : Header) (key value : String)
    (habs : headerValues h (CanonicalMIMEHeaderKey key) = []) :
    Header.Get (Header.Add h key value) key = value := by
  simp [Header.Get, Header.Add, headerValues_headerSet_same, habs]

/-- When the request already carries a value under the canonical key, `Get`
after `Add` yields that first value, not the value added. -/
theorem Header.Get_Add_of_present (h : Header) (key value first : String)
    (others : List String)
    (hpre : headerValues h (CanonicalMIMEHeaderKey key) = first :: others) :
    Header.Get (Header.Add h key value) key = first := by
  simp [Header.Get, Header.Add, headerValues_headerSet_same, hpre]

/-- C9 (evaluation of the code). A `/connect` request that itself carries
`X-WSGW-CONNECTION-ID: spoofed` is given the identifier
`c0000000000000000003` by `createID`; the backend's `Header.Get` reads
`spoofed` from the `connecting` call and from the `disconnected` call, not
the generated identifier (which travels as a second value). -/
theorem connectHandler_client_supplied_id_wins :
    (connectHandler (mockApp sampleUrls) sampleUrls newWsConnections (fun _ _ => none)
        spoofedInput).trace.filterMap Event.backendReads
      = [("http://app/ws/connecting", "spoofed"), ("http://app/ws/disconnected", "spoofed")] ∧
    spoofedInput.connId = "c0000000000000000003" ∧
    headerValues
        (Header.Add spoofedInput.header ConnectionIDHeaderKey spoofedInput.connId)
        (CanonicalMIMEHeaderKey ConnectionIDHeaderKey)
      = ["spoofed", "c0000000000000000003"] := by
  refine ⟨by decide, rfl, by decide⟩

/-! ## The inbound path -/

/-- The `fromClient` case calls the callback with the message and the
session's identifier, discards its result, changes no state and goes on. -/
theorem selectCase_fromClient (wsconn : wsConnections) (mu : MutexState)
    (connId : connectionID) (onMessageReceived : onMgsReceivedFunc) (msg : String) :
    selectCase wsconn mu connId onMessageReceived (SelectEvent.fromClient msg)
      = IterOutcome.next wsconn mu
          [Event.onMessageReceived msg connId (onMessageReceived msg connId)] := rfl

/-- The callback calls of one pass: the one call for a `fromClient` event,
none for any other event. -/
theorem selectCase_sinkCalls (wsconn : wsConnections) (mu : MutexState)
    (connId : connectionID) (onMessageReceived : onMgsReceivedFunc) (ev : SelectEvent) :
    match selectCase wsconn mu connId onMessageReceived ev with
    | IterOutcome.next _ _ tr =>
      sinkCalls tr = (inboundMessages [Step.select ev]).map (fun m => (m, connId))
    | IterOutcome.ret _ _ _ tr =>
      sinkCalls tr = (inboundMessages [Step.select ev]).map (fun m => (m, connId)) := by
  cases ev with
  | fromBackend writeErr seconds expired =>
    cases hr : receiveFromBackend wsconn mu connId with
    | none => simp [selectCase, hr, sinkCalls, inboundMessages, Step.inbound]
    | some p =>
      obtain ⟨m, ws1, mu1⟩ := p
      cases hw : writeTimeout 5 writeErr seconds expired <;>
        simp [selectCase, hr, hw, sinkCalls, inboundMessages, Step.inbound, Event.sinkCall]
  | fromClient msg =>
    simp [selectCase, sinkCalls, inboundMessages, Step.inbound, Event.sinkCall]
  | readError e => simp [selectCase, sinkCalls, inboundMessages, Step.inbound]
  | ctxDone e => simp [selectCase, sinkCalls, inboundMessages, Step.inbound]

/-- The callback calls of one step: while the loop is running, the one call
for a message handed in on `fromClient`; otherwise none. -/
theorem sessionStep_sinkCalls (connId : connectionID)
    (onMessageReceived : onMgsReceivedFunc) (s : LoopResult) (st : Step) :
    sinkCalls (sessionStep connId onMessageReceived s st).trace
      = sinkCalls s.trace ++
          (if s.phase = Phase.running then
            (inboundMessages [st]).map (fun m => (m, connId)) else []) := by
  cases st with
  | select ev =>
    cases hp : s.phase with
    | running =>
      have hk := selectCase_sinkCalls s.wsconn s.connectionsMu connId onMessageReceived ev
      cases hs : selectCase s.wsconn s.connectionsMu connId onMessageReceived ev with
      | next ws1 mu1 tr =>
        rw [hs] at hk
        simp only at hk
        simp only [sessionStep, hp, hs, if_true]
        rw [← hk]
        simp [sinkCalls]
      | ret err ws1 mu1 tr =>
        rw [hs] at hk
        simp only at hk
        simp only [sessionStep, hp, hs, if_true]
        rw [← hk]
        simp [sinkCalls]
    | exiting e => simp [sessionStep, hp]
    | returned e => simp [sessionStep, hp]
  | push msg id =>
    have hin : inboundMessages [Step.push msg id] = [] := by
      simp [inboundMessages, Step.inbound]
    cases hmu : s.connectionsMu with
    | some p => simp [sessionStep, hmu, hin]
    | none =>
      cases hpush : push s.wsconn msg id <;> simp [sessionStep, hmu, hpush, hin]
  | receive id =>
    have hin : inboundMessages [Step.receive id] = [] := by
      simp [inboundMessages, Step.inbound]
    rw [hin]
    by_cases hid : id = connId
    · simp [sessionStep, hid]
    · cases hr : receiveFromBackend s.wsconn s.connectionsMu id with
      | none => simp [sessionStep, hid, hr]
      | some p =>
        obtain ⟨m, ws1, mu1⟩ := p
        simp [sessionStep, hid, hr]
  | deferred =>
    have hin : inboundMessages [Step.deferred] = [] := by
      simp [inboundMessages, Step.inbound]
    cases hp : s.phase with
    | running => simp [sessionStep, hp, hin]
    | returned e => simp [sessionStep, hp]
    | exiting e =>
      cases hmu : s.connectionsMu <;> simp [sessionStep, hp, hmu]

/-- Once the loop has returned, no callback call is made any more. -/
theorem runSteps_sinkCalls_of_not_running (connId : connectionID)
    (onMessageReceived : onMgsReceivedFunc) (sched : List Step) :
    ∀ s : LoopResult, s.phase ≠ Phase.running →
      sinkCalls (runSteps connId onMessageReceived sched s).trace = sinkCalls s.trace ∧
      (runSteps connId onMessageReceived sched s).phase ≠ Phase.running := by
  induction sched with
  | nil => intro s h; exact ⟨rfl, h⟩
  | cons a t ih =>
    intro s h
    have hnot : (sessionStep connId onMessageReceived s a).phase ≠ Phase.running := by
      intro hrun
      cases hlr : s.loopReturn with
      | none => exact h ((loopReturn_eq_none_iff s).mp hlr)
      | some e =>
        have h2 := sessionStep_loopReturn connId onMessageReceived s a e hlr
        rw [(loopReturn_eq_none_iff _).mpr hrun] at h2
        exact absurd h2 (by simp)
    obtain ⟨h1, h2⟩ := ih _ hnot
    simp only [runSteps]
    refine ⟨?_, h2⟩
    rw [h1, sessionStep_sinkCalls]
    simp [h]

/-- The callback calls of a run are, in order, calls for the messages the
schedule hands in: all of them while the loop is running, an initial part of
them once it has returned. -/
theorem runSteps_sinkCalls (connId : connectionID) (onMessageReceived : onMgsReceivedFunc)
    (sched : List Step) :
    ∀ s : LoopResult, s.phase = Phase.running →
      ∃ delivered,
        sinkCalls (runSteps connId onMessageReceived sched s).trace
          = sinkCalls s.trace ++ delivered ∧
        delivered <+: (inboundMessages sched).map (fun m => (m, connId)) ∧
        ((runSteps connId onMessageReceived sched s).phase = Phase.running →
          delivered = (inboundMessages sched).map (fun m => (m, connId))) := by
  induction sched with
  | nil =>
    intro s _
    exact ⟨[], by simp [runSteps], by simp [inboundMessages], by simp [inboundMessages]⟩
  | cons a t ih =>
    intro s hrun
    have hin : inboundMessages (a :: t) = inboundMessages [a] ++ inboundMessages t := by
      simp [inboundMessages, List.filterMap_cons]
      cases Step.inbound a <;> simp
    have hstep := sessionStep_sinkCalls connId onMessageReceived s a
    simp only [hrun, if_true] at hstep
    by_cases hnext : (sessionStep connId onMessageReceived s a).phase = Phase.running
    · obtain ⟨d, hd1, hd2, hd3⟩ := ih _ hnext
      refine ⟨(inboundMessages [a]).map (fun m => (m, connId)) ++ d, ?_, ?_, ?_⟩
      · simp only [runSteps]
        rw [hd1, hstep, List.append_assoc]
      · rw [hin, List.map_append]
        exact (List.prefix_append_right_inj _).mpr hd2
      · intro hfin
        simp only [runSteps] at hfin
        rw [hin, List.map_append, hd3 hfin]
    · obtain ⟨h1, h2⟩ := runSteps_sinkCalls_of_not_running connId onMessageReceived t _ hnext
      refine ⟨(inboundMessages [a]).map (fun m => (m, connId)), ?_, ?_, ?_⟩
      · simp only [runSteps]
        rw [h1, hstep]
      · rw [hin, List.map_append]
        exact List.prefix_append _ _
      · intro hfin
        simp only [runSteps] at hfin
        exact absurd hfin h2

/-- What a step does to the phase, the registry and the mutex does not
depend on the callback. -/
theorem sessionStep_callback_irrelevant (connId : connectionID) (f g : onMgsReceivedFunc)
    (s t : LoopResult) (st : Step) (hp : t.phase = s.phase) (hw : t.wsconn = s.wsconn)
    (hm : t.connectionsMu = s.connectionsMu) :
    (sessionStep connId g t st).phase = (sessionStep connId f s st).phase ∧
    (sessionStep connId g t st).wsconn = (sessionStep connId f s st).wsconn ∧
    (sessionStep connId g t st).connectionsMu = (sessionStep connId f s st).connectionsMu := by
  obtain ⟨sp, sw, sm, str⟩ := s
  obtain ⟨tp, tw, tm, ttr⟩ := t
  simp only at hp hw hm
  subst hp hw hm
  cases st with
  | select ev =>
    cases tp with
    | running =>
      cases ev with
      | fromBackend writeErr seconds expired =>
        cases hr : receiveFromBackend tw tm connId with
        | none => simp [sessionStep, selectCase, hr]
        | some p =>
          obtain ⟨m, ws1, mu1⟩ := p
          cases hwt : writeTimeout 5 writeErr seconds expired <;>
            simp [sessionStep, selectCase, hr, hwt]
      | fromClient msg => simp [sessionStep, selectCase]
      | readError e => simp [sessionStep, selectCase]
      | ctxDone e => simp [sessionStep, selectCase]
    | exiting e => simp [sessionStep]
    | returned e => simp [sessionStep]
  | push msg id =>
    cases tm with
    | some p => simp [sessionStep]
    | none => cases hpush : push tw msg id <;> simp [sessionStep, hpush]
  | receive id =>
    by_cases hid : id = connId
    · simp [sessionStep, hid]
    · cases hr : receiveFromBackend tw tm id with
      | none => simp [sessionStep, hid, hr]
      | some p =>
        obtain ⟨m, ws1, mu1⟩ := p
        simp [sessionStep, hid, hr]
  | deferred =>
    cases tp with
    | running => simp [sessionStep]
    | returned e => simp [sessionStep]
    | exiting e => cases tm <;> simp [sessionStep]

theorem runSteps_callback_irrelevant (connId : connectionID) (f g : onMgsReceivedFunc)
    (sched : List Step) :
    ∀ s t : LoopResult, t.phase = s.phase → t.wsconn = s.wsconn →
      t.connectionsMu = s.connectionsMu →
      (runSteps connId g sched t).phase = (runSteps connId f sched s).phase ∧
      (runSteps connId g sched t).wsconn = (runSteps connId f sched s).wsconn ∧
      (runSteps connId g sched t).connectionsMu
        = (runSteps connId f sched s).connectionsMu := by
  induction sched with
  | nil => intro s t hp hw hm; exact ⟨hp, hw, hm⟩
  | cons a rest ih =>
    intro s t hp hw hm
    obtain ⟨h1, h2, h3⟩ := sessionStep_callback_irrelevant connId f g s t a hp hw hm
    exact ih _ _ h1 h2 h3

/-- C11. For every message handed to the relay loop on `fromClient` while
the loop is running, `processMessages` calls the Message Sink callback once,
with that message and the session's connection identifier, and whatever the
callback returns the loop is still running afterwards, the call has not
returned, the registry (so every outbound queue) and the mutex are as before,
and the rest of the run proceeds from there.  Over a whole run the callback
calls are, in order, exactly the calls for the inbound messages taken (all of
them while the loop runs, an initial part once it has returned), and
replacing the callback by any other one changes neither the phase of the
call, nor whether and with what value it returns, nor the registry, nor the
mutex. -/
theorem processMessages_inbound_callback (wsconn : wsConnections)
    (connectionId : connectionID) (onMessageReceived : onMgsReceivedFunc)
    (sched : List Step) :
    (∀ pre msg rest, sched = pre ++ Step.select (SelectEvent.fromClient msg) :: rest →
      (processMessages wsconn connectionId onMessageReceived pre).phase = Phase.running →
      (processMessages wsconn connectionId onMessageReceived
          (pre ++ [Step.select (SelectEvent.fromClient msg)])).phase = Phase.running ∧
        (processMessages wsconn connectionId onMessageReceived
          (pre ++ [Step.select (SelectEvent.fromClient msg)])).result = none ∧
        (processMessages wsconn connectionId onMessageReceived
            (pre ++ [Step.select (SelectEvent.fromClient msg)])).wsconn
          = (processMessages wsconn connectionId onMessageReceived pre).wsconn ∧
        (processMessages wsconn connectionId onMessageReceived
            (pre ++ [Step.select (SelectEvent.fromClient msg)])).connectionsMu
          = (processMessages wsconn connectionId onMessageReceived pre).connectionsMu ∧
        (processMessages wsconn connectionId onMessageReceived
            (pre ++ [Step.select (SelectEvent.fromClient msg)])).trace
          = (processMessages wsconn connectionId onMessageReceived pre).trace ++
              [Event.onMessageReceived msg connectionId
                (onMessageReceived msg connectionId)] ∧
        processMessages wsconn connectionId onMessageReceived sched
          = runSteps connectionId onMessageReceived rest
              (processMessages wsconn connectionId onMessageReceived
                (pre ++ [Step.select (SelectEvent.fromClient msg)]))) ∧
    ((processMessages wsconn connectionId onMessageReceived sched).phase = Phase.running →
      sinkCalls (processMessages wsconn connectionId onMessageReceived sched).trace
        = (inboundMessages sched).map (fun m => (m, connectionId))) ∧
    (sinkCalls (processMessages wsconn connectionId onMessageReceived sched).trace
      <+: (inboundMessages sched).map (fun m => (m, connectionId))) ∧
    (∀ other : onMgsReceivedFunc,
      (processMessages wsconn connectionId other sched).phase
          = (processMessages wsconn connectionId onMessageReceived sched).phase ∧
        (processMessages wsconn connectionId other sched).result
          = (processMessages wsconn connectionId onMessageReceived sched).result ∧
        (processMessages wsconn connectionId other sched).wsconn
          = (processMessages wsconn connectionId onMessageReceived sched).wsconn ∧
        (processMessages wsconn connectionId other sched).connectionsMu
          = (processMessages wsconn connectionId onMessageReceived sched).connectionsMu) := by
  have hcalls := runSteps_sinkCalls connectionId onMessageReceived sched
    { phase := Phase.running
      wsconn := addConnection wsconn (newConnection wsconn connectionId)
      connectionsMu := none
      trace := [] } rfl
  obtain ⟨delivered, hd1, hd2, hd3⟩ := hcalls
  have htrace : sinkCalls (processMessages wsconn connectionId onMessageReceived sched).trace
      = delivered := by
    unfold processMessages relayLoop
    rw [hd1]
    simp [sinkCalls]
  refine ⟨?_, ?_, ?_, ?_⟩
  · intro pre msg rest hsplit hrun
    have hstep : processMessages wsconn connectionId onMessageReceived
        (pre ++ [Step.select (SelectEvent.fromClient msg)])
        = { phase := Phase.running
            wsconn := (processMessages wsconn connectionId onMessageReceived pre).wsconn
            connectionsMu :=
              (processMessages wsconn connectionId onMessageReceived pre).connectionsMu
            trace := (processMessages wsconn connectionId onMessageReceived pre).trace ++
              [Event.onMessageReceived msg connectionId
                (onMessageReceived msg connectionId)] } := by
      rw [processMessages_append]
      simp [runSteps, sessionStep, hrun, selectCase]
    refine ⟨by rw [hstep], by rw [hstep]; rfl, by rw [hstep], by rw [hstep], by rw [hstep], ?_⟩
    have hsched : sched = (pre ++ [Step.select (SelectEvent.fromClient msg)]) ++ rest := by
      rw [hsplit]; simp
    rw [← processMessages_append, ← hsched]
  · intro hrun
    rw [htrace]
    exact hd3 hrun
  · rw [htrace]
    exact hd2
  · intro other
    obtain ⟨h1, h2, h3⟩ := runSteps_callback_irrelevant connectionId onMessageReceived other
      sched
      { phase := Phase.running
        wsconn := addConnection wsconn (newConnection wsconn connectionId)
        connectionsMu := none
        trace := [] }
      { phase := Phase.running
        wsconn := addConnection wsconn (newConnection wsconn connectionId)
        connectionsMu := none
        trace := [] } rfl rfl rfl
    refine ⟨h1, ?_, h2, h3⟩
    unfold LoopResult.result
    have h1' : (processMessages wsconn connectionId other sched).phase
        = (processMessages wsconn connectionId onMessageReceived sched).phase := h1
    rw [h1']

theorem processMessages_inbound_callback_witness :
    (processMessages newWsConnections "a" failingSink
        ([Step.push "m1" "a"] ++ [Step.select (SelectEvent.fromClient "hi")])).phase
        = Phase.running ∧
      (processMessages newWsConnections "a" failingSink
        ([Step.push "m1" "a"] ++ [Step.select (SelectEvent.fromClient "hi")])).result = none ∧
      (processMessages newWsConnections "a" failingSink
          ([Step.push "m1" "a"] ++ [Step.select (SelectEvent.fromClient "hi")])).wsconn
        = (processMessages newWsConnections "a" failingSink [Step.push "m1" "a"]).wsconn ∧
      (processMessages newWsConnections "a" failingSink
          ([Step.push "m1" "a"] ++ [Step.select (SelectEvent.fromClient "hi")])).connectionsMu
        = (processMessages newWsConnections "a" failingSink
            [Step.push "m1" "a"]).connectionsMu ∧
      (processMessages newWsConnections "a" failingSink
          ([Step.push "m1" "a"] ++ [Step.select (SelectEvent.fromClient "hi")])).trace
        = (processMessages newWsConnections "a" failingSink [Step.push "m1" "a"]).trace ++
            [Event.onMessageReceived "hi" "a" (failingSink "hi" "a")] ∧
      processMessages newWsConnections "a" failingSink
          ([Step.push "m1" "a"] ++ Step.select (SelectEvent.fromClient "hi") ::
            [Step.select (SelectEvent.fromBackend none),
             Step.select (SelectEvent.readError (GoError.other "EOF")), Step.deferred])
        = runSteps "a" failingSink
            [Step.select (SelectEvent.fromBackend none),
             Step.select (SelectEvent.readError (GoError.other "EOF")), Step.deferred]
            (processMessages newWsConnections "a" failingSink
              ([Step.push "m1" "a"] ++ [Step.select (SelectEvent.fromClient "hi")])) :=
  (processMessages_inbound_callback newWsConnections "a" failingSink
    ([Step.push "m1" "a"] ++ Step.select (SelectEvent.fromClient "hi") ::
      [Step.select (SelectEvent.fromBackend none),
       Step.select (SelectEvent.readError (GoError.other "EOF")), Step.deferred])).1
    [Step.push "m1" "a"] "hi"
    [Step.select (SelectEvent.fromBackend none),
     Step.select (SelectEvent.readError (GoError.other "EOF")), Step.deferred] rfl (by decide)

end Wsgw
